import Mathlib

/-!
Verification development for the trace-replay gas attribution engine
(`gasprofile.js`).  The JavaScript source is shallowly embedded: JS objects
used as dictionaries become association lists, JS numbers become `Int`/`Nat`
(the program only manipulates integers well below 2^53, where doubles are
exact; the one place a 32-bit coercion appears, `x | 0`, is modelled
explicitly by `toInt32`), nullable values become `Option`, and runtime type
errors (reading a property of `undefined`) and failed `assert`s become an
`Except` error.  All recursions are structural (with explicit fuel where the
JS loop is not), so every definition evaluates inside the kernel.
-/

/-- Model of a JavaScript string-or-missing value: `null`, `undefined`,
or an actual string.  Needed where the code distinguishes them only through
truthiness (e.g. `normalizeAddress`). -/
inductive JsVal where
  | jnull : JsVal
  | jundef : JsVal
  | jstr : String → JsVal
deriving DecidableEq, Repr

/-- JS truthiness for `JsVal`: `null`, `undefined` and `""` are falsy. -/
def JsVal.truthy : JsVal → Bool
  | .jstr s => s ≠ ""
  | _ => false

def jsOfOption : Option String → JsVal
  | none => .jundef
  | some s => .jstr s

/-- Split a character list at every occurrence of `sep`, like JS
`String.prototype.split` with a one-character separator (an empty input
gives one empty piece, a trailing separator gives a trailing empty piece). -/
def splitChGo (sep : Char) : List Char → List Char → List (List Char)
  | [], acc => [acc.reverse]
  | c :: rest, acc =>
    if c = sep then acc.reverse :: splitChGo sep rest []
    else splitChGo sep rest (c :: acc)

def splitCh (sep : Char) (l : List Char) : List (List Char) :=
  splitChGo sep l []

/-- Model of `String.prototype.trim`: drop whitespace at both ends. -/
def trimCh (l : List Char) : List Char :=
  ((l.dropWhile Char.isWhitespace).reverse.dropWhile Char.isWhitespace).reverse

/-- Check whether `pre` is a leading run of `l`. -/
def leadsWith : List Char → List Char → Bool
  | [], _ => true
  | _ :: _, [] => false
  | p :: ps, c :: cs => p = c && leadsWith ps cs

/-- Model of `str.indexOf(sub) !== -1`: some occurrence of `sub` in `hay`. -/
def jsIncludesCh (hay sub : List Char) : Bool :=
  leadsWith sub hay ||
    match hay with
    | [] => false
    | _ :: t => jsIncludesCh t sub

/-- Value of one hexadecimal digit (0 for a non-hex character; the inputs
the program feeds in are valid hex). -/
def hexVal (c : Char) : Nat :=
  if '0' ≤ c ∧ c ≤ '9' then c.toNat - '0'.toNat
  else if 'a' ≤ c ∧ c ≤ 'f' then c.toNat - 'a'.toNat + 10
  else if 'A' ≤ c ∧ c ≤ 'F' then c.toNat - 'A'.toNat + 10
  else 0

def isHexChar (c : Char) : Bool :=
  ('0' ≤ c ∧ c ≤ '9') ∨ ('a' ≤ c ∧ c ≤ 'f') ∨ ('A' ≤ c ∧ c ≤ 'F')

def isHexStr (s : String) : Bool := s.data.all isHexChar

/-- Big-endian hex parse, as `new BN(str, 16)` does for a valid hex string. -/
def parseHexNat (s : String) : Nat :=
  s.data.foldl (fun acc c => 16 * acc + hexVal c) 0

def hexChar (n : Nat) : Char :=
  if n < 10 then Char.ofNat ('0'.toNat + n) else Char.ofNat ('a'.toNat + n - 10)

/-- Hex digits of `n`, least significant first; `fuel` only bounds the
recursion depth and any `fuel ≥ n` gives the exact digit list. -/
def hexDigitsRev : Nat → Nat → List Char
  | 0, _ => []
  | fuel + 1, n => if n = 0 then [] else hexChar (n % 16) :: hexDigitsRev fuel (n / 16)

/-- Minimal lowercase hex rendering of a number; bn.js renders zero as "0". -/
def natToHexStr (n : Nat) : String :=
  if n = 0 then "0" else ⟨(hexDigitsRev n n).reverse⟩

/-- Padding rule of `BN.prototype.toString(base, padding)`: prepend zeros
while the length is not a multiple of `padding` (bn.js pads to a multiple,
it does not truncate). -/
def bnPad (s : String) (p : Nat) : String :=
  if s.length % p = 0 then s
  else ⟨List.replicate (p - s.length % p) '0'⟩ ++ s

/-- Model of `strip0x` on an actual string: drop a literal `0x` prefix. -/
def strip0xStr (s : String) : String :=
  match s.data with
  | '0' :: 'x' :: rest => ⟨rest⟩
  | _ => s

/-- Model of `strip0x`: falsy inputs are returned unchanged (the `&&`
short-circuit makes the ternary condition falsy). -/
def strip0x : JsVal → JsVal
  | .jstr s => if s = "" then .jstr "" else .jstr (strip0xStr s)
  | v => v

/-- Model of `normalizeAddress` on a non-empty string:
`new BN(strip0x(s), 16).toString(16, 40)`. -/
def normalizeAddressStr (s : String) : String :=
  bnPad (natToHexStr (parseHexNat (strip0xStr s))) 40

/-- Model of `normalizeAddress`: falsy inputs (null, undefined, empty
string) are returned as-is. -/
def normalizeAddress : JsVal → JsVal
  | .jstr s => if s = "" then .jstr "" else .jstr (normalizeAddressStr s)
  | v => v

/-- ToInt32, the coercion performed by the JS bitwise-or in `x | 0`. -/
def toInt32 (x : Int) : Int := (x + 2 ^ 31) % 2 ^ 32 - 2 ^ 31

/-- Model of `(v | 0)` where `v` is an array slot that may be absent:
`undefined | 0` is `0`, a stored number is coerced to signed 32 bits. -/
def jsOrInt32Zero : Option Int → Int
  | none => 0
  | some x => toInt32 x

/-- Model of JS `Number()` restricted to the strings this program feeds it
(optionally signed decimal integers; the empty string is 0; anything else
is NaN, represented by `none`). -/
def jsNumberCh (l : List Char) : Option Int :=
  if l = [] then some 0 else
  let digitsVal : List Char → Option Nat := fun ds =>
    if ds ≠ [] ∧ ds.all Char.isDigit then
      some (ds.foldl (fun a c => 10 * a + (c.toNat - '0'.toNat)) 0)
    else none
  match l with
  | '-' :: rest => (digitsVal rest).map (fun n => -(n : Int))
  | '+' :: rest => (digitsVal rest).map (fun n => (n : Int))
  | ds => (digitsVal ds).map (fun n => (n : Int))

/-- Number() applied to a possibly-undefined variable: `Number(undefined)`
is NaN (`none`). -/
def jsNumberOpt : Option (List Char) → Option Int
  | none => none
  | some s => jsNumberCh s

/-- Decoded source-map entry `{s, l, f, j}`.  `none` in a numeric field is
NaN (inherited from an undefined first-segment field); `none` in `j` is
undefined. -/
structure SMEntry where
  s : Option Int
  l : Option Int
  f : Option Int
  j : Option String
deriving DecidableEq, Repr

/-- Sliding previous-field state of `parseSourceMap` (raw field strings,
exactly like the JS `prevS`/`prevL`/`prevF`/`prevJ` variables). -/
structure SMPrev where
  ps : Option (List Char)
  pl : Option (List Char)
  pf : Option (List Char)
  pj : Option (List Char)
deriving DecidableEq, Repr

/-- One field step: an absent (`none`) or empty field inherits the previous
raw value, an explicit field is used and becomes the new previous value. -/
def smField (cur : Option (List Char)) (prev : Option (List Char)) :
    Option (List Char) × Option (List Char) :=
  match cur with
  | none => (prev, prev)
  | some v => if v = [] then (prev, prev) else (some v, some v)

/-- Decode one `s:l:f:j` segment, returning the entry and the updated
previous-field state. -/
def smStep (prev : SMPrev) (seg : List Char) : SMEntry × SMPrev :=
  let fields := splitCh ':' seg
  let (sv, ps) := smField fields[0]? prev.ps
  let (lv, pl) := smField fields[1]? prev.pl
  let (fv, pf) := smField fields[2]? prev.pf
  let (jv, pj) := smField fields[3]? prev.pj
  (⟨jsNumberOpt sv, jsNumberOpt lv, jsNumberOpt fv, jv.map List.asString⟩,
   ⟨ps, pl, pf, pj⟩)

def parseSourceMapGo (prev : SMPrev) : List (List Char) → List SMEntry
  | [] => []
  | seg :: rest =>
    (smStep prev seg).1 :: parseSourceMapGo (smStep prev seg).2 rest

/-- Model of `parseSourceMap`: trim, split on `;`, decode each segment with
per-field inheritance. -/
def parseSourceMap (raw : String) : List SMEntry :=
  parseSourceMapGo ⟨none, none, none, none⟩ (splitCh ';' (trimCh raw.data))

/-- Model of `codeHexStr[pc*2] + codeHexStr[pc*2+1]` followed by
`parseInt(·, 16)`: if the second character is past the end the string is
`"Xundefined"` and `parseInt` stops at the first non-hex character, giving
the value of the single digit. -/
def byteAt (chars : List Char) (pc : Nat) : Nat :=
  match chars[2 * pc]?, chars[2 * pc + 1]? with
  | some a, some b => 16 * hexVal a + hexVal b
  | some a, none => hexVal a
  | none, _ => 0

/-- Loop of `buildPcToInstructionMapping`: record `pc ↦ instructionIndex`,
skip PUSH immediates, stop as soon as `pc` passes the end (the JS `pc <
codeHexStr.length/2` float comparison is equivalent to `2*pc < length`).
The loop advances `pc` by at least 1 each iteration, so any
`fuel ≥ chars.length` gives the full run. -/
def buildGo (chars : List Char) : Nat → Nat → Nat → List (Nat × Nat)
  | 0, _, _ => []
  | fuel + 1, pc, idx =>
    if 2 * pc < chars.length then
      let b := byteAt chars pc
      let step := if 0x60 ≤ b ∧ b ≤ 0x7f then (b - 0x60 + 1) + 1 else 1
      (pc, idx) :: buildGo chars fuel (pc + step) (idx + 1)
    else []

/-- Model of `buildPcToInstructionMapping` (the mapping object as an
association list in insertion order). -/
def buildPcToInstructionMapping (codeHexStr : String) : List (Nat × Nat) :=
  buildGo codeHexStr.data (codeHexStr.data.length + 1) 0 0

inductive BytecodeErr where
  | truncated : BytecodeErr
deriving DecidableEq, Repr

/-- Modelled from the spec (section 4.1), for comparison with the code:
the mapper "Fails with BytecodeTruncated if a PUSH's immediates extend past
the end"; otherwise it produces the same PC-to-index mapping. -/
def buildGoSpec (chars : List Char) : Nat → Nat → Nat →
    Except BytecodeErr (List (Nat × Nat))
  | 0, _, _ => .ok []
  | fuel + 1, pc, idx =>
    if 2 * pc < chars.length then
      let b := byteAt chars pc
      if 0x60 ≤ b ∧ b ≤ 0x7f then
        let n := b - 0x60 + 1
        if 2 * (pc + n + 1) > chars.length then .error .truncated
        else do
          let rest ← buildGoSpec chars fuel (pc + n + 1) (idx + 1)
          pure ((pc, idx) :: rest)
      else do
        let rest ← buildGoSpec chars fuel (pc + 1) (idx + 1)
        pure ((pc, idx) :: rest)
    else .ok []

/-- Spec-side PC mapper (see `buildGoSpec`). -/
def buildPcToInstructionMappingSpec (codeHexStr : String) :
    Except BytecodeErr (List (Nat × Nat)) :=
  buildGoSpec codeHexStr.data (codeHexStr.data.length + 1) 0 0

/-- One entry of `trace.structLogs` as supplied by `debug_traceTransaction`
(`stack` is bottom-to-top; the top is the last element). -/
structure StructLog where
  pc : Nat
  op : String
  gas : Int
  gasCost : Int
  depth : Int
  stack : List String
deriving DecidableEq, Repr

/-- Model of `getGasCost`: a negative cost on RETURN/REVERT/STOP is a known
trace-provider quirk and is zeroed; every other cost is passed through. -/
def getGasCost (log : StructLog) : Int :=
  if log.gasCost < 0 ∧ (log.op = "RETURN" ∨ log.op = "REVERT" ∨ log.op = "STOP")
  then 0 else log.gasCost

/-- JS indexing `l[i]` with a possibly negative or out-of-range index. -/
def jsListIdx (l : List String) (i : Int) : Option String :=
  if i < 0 then none else l[i.toNat]?

structure CallTarget where
  addressHexStr : JsVal
  isConstructionCall : Bool
deriving DecidableEq, Repr

/-- Model of the CREATE branch scan in `getCallTarget`: the indexed for-loop
starting at `iLog + 1` with early exit is the first element of the suffix
whose depth equals `d`. -/
def scanSameDepth (d : Int) : List StructLog → Option StructLog
  | [] => none
  | l :: rest => if l.depth = d then some l else scanSameDepth d rest

/-- Model of `getCallTarget`: CALL-family ops take the second-from-top stack
word; CREATE-family ops scan forward for the first log back at the same
depth and take its stack top; anything else has no target. -/
def getCallTarget (log : StructLog) (iLog : Nat) (structLogs : List StructLog) :
    CallTarget :=
  if log.op = "CALL" ∨ log.op = "CALLCODE" ∨ log.op = "DELEGATECALL" ∨
      log.op = "STATICCALL" then
    ⟨normalizeAddress (jsOfOption (jsListIdx log.stack ((log.stack.length : Int) - 2))),
     false⟩
  else if log.op = "CREATE" ∨ log.op = "CREATE2" then
    match scanSameDepth log.depth (structLogs.drop (iLog + 1)) with
    | some nl =>
      ⟨normalizeAddress (jsOfOption (jsListIdx nl.stack ((nl.stack.length : Int) - 1))),
       true⟩
    | none => ⟨.jnull, true⟩
  else ⟨.jnull, false⟩

/-- Model of a `Source` record (`makeSource`); `lineGas` is the sparse JS
array as an association list, `linesWithCalls` the set of marked lines. -/
structure Source where
  id : Option Int
  fileName : Option String
  skip : Bool
  text : Option String
  lineOffsets : Option (List Nat)
  lineGas : List (Nat × Int)
  linesWithCalls : List Nat
deriving DecidableEq, Repr

def makeSource (id : Option Int) (fileName : Option String) : Source :=
  ⟨id, fileName, false, none, none, [], []⟩

/-- Model of a `Contract` record (`makeContract`). -/
structure Contract where
  addressHexStr : String
  codeHexStr : Option String
  constructionCodeHexStr : Option String
  fileName : Option String
  name : Option String
  sourcesById : List (Option Int × Option Nat)
  sourceMap : Option (List SMEntry)
  constructorSourceMap : Option (List SMEntry)
  pcToIdx : Option (List (Nat × Nat))
  constructionPcToIdx : Option (List (Nat × Nat))
  totalGasCost : Int
  synthGasCost : Int
deriving DecidableEq, Repr

def makeContract (addressHexStr : String) : Contract :=
  ⟨addressHexStr, none, none, none, none, [], none, none, none, none, 0, 0⟩

/-- Model of a call-stack item (`makeCallStackItem`); the contract object
reference is modelled by its registry key (the normalized address). -/
structure Frame where
  contractKey : String
  isConstructionCall : Bool
  gasBefore : Int
  gasBeforeOutgoingCall : Int
  outgoingCallSource : Option Nat
  outgoingCallLine : Option Nat
deriving DecidableEq, Repr

def makeCallStackItem (contractKey : String) : Frame :=
  ⟨contractKey, false, 0, 0, none, none⟩

structure ContractData where
  deployedObject : String
  deployedSourceMap : String
  bytecodeObject : String
  bytecodeSourceMap : String
deriving DecidableEq, Repr

/-- Compiler-output bundle: `sources[fileName].id` and
`contracts[fileName][name].evm.*`. -/
structure SolcOutput where
  sources : List (String × Int)
  contracts : List (String × List (String × ContractData))
deriving Repr

/-- External collaborators: the compiler bundle, the skip filters, the chain
(`eth_getCode`, returning a possibly `0x`-prefixed hex string) and the file
system (`readSource`, already folding in the source-root / module-resolution
fallbacks, which are out of scope per the spec). -/
structure Env where
  solc : SolcOutput
  skipFiles : List String
  getCode : String → String
  readSource : String → Option String

/-- Whole mutable state of a profiling run.  Source objects live in an
arena (`arena`), and every JS object reference to a Source or Contract is
modelled by its arena index or registry key, so aliased mutation is exact.
The call stack list keeps its TOP as the head (JS pushes/pops at the end of
the array; JS index `j` is list position `length - 1 - j`). -/
structure ReplayState where
  callStack : List Frame
  contracts : List (String × Contract)
  arena : List Source
  sourceById : List (Option Int × Nat)
  sourceByFilename : List (String × Nat)
deriving DecidableEq, Repr

inductive Err where
  | typeError : Err
  | assertFail : Err
deriving DecidableEq, Repr

/-- Replace the value at an existing key, or append a new binding (JS
property assignment on an object used as a dictionary). -/
def assocSet [BEq κ] : List (κ × α) → κ → α → List (κ × α)
  | [], k, v => [(k, v)]
  | p :: rest, k, v => if p.1 == k then (k, v) :: rest else p :: assocSet rest k v

/-- Apply `f` to the value stored at key `k` (in-place object mutation
through a reference; a no-op if the key is absent, which never happens for
the references the engine holds). -/
def assocUpd [BEq κ] (l : List (κ × α)) (k : κ) (f : α → α) : List (κ × α) :=
  l.map (fun p => if p.1 == k then (p.1, f p.2) else p)

def listSetAt : List α → Nat → (α → α) → List α
  | [], _, _ => []
  | x :: xs, 0, f => f x :: xs
  | x :: xs, n + 1, f => x :: listSetAt xs n f

def natSetAdd (l : List Nat) (k : Nat) : List Nat :=
  if l.contains k then l else l ++ [k]

/-- JS read `callStack[j]` (from the bottom) on the top-first list. -/
def jsStackIdx (stack : List Frame) (j : Int) : Option Frame :=
  if 0 ≤ j ∧ j < (stack.length : Int) then stack[stack.length - 1 - j.toNat]?
  else none

/-- Modelled from the spec (section 4.6): `binarysearch.closest` from the
external `binarysearch` package returns the index of the largest offset
`≤ s` (ties toward the lower index); offset lists are ascending.  A NaN
offset never occurs for valid compiler output; it is mapped to 0 here. -/
def closestIdx (offs : List Nat) (t : Int) : Nat :=
  match (offs.takeWhile (fun o => (o : Int) ≤ t)).length with
  | 0 => 0
  | n + 1 => n

def closestJs (offs : List Nat) (t : Option Int) : Nat :=
  match t with
  | some v => closestIdx offs v
  | none => 0

def lineOffsetsGo : List (List Char) → Nat → List Nat
  | [], _ => []
  | line :: rest, accu => accu :: lineOffsetsGo rest (accu + line.length + 1)

/-- Model of `buildLineOffsets`: split on LF, offset 0 for line 0, each
next offset is previous + line length + 1. -/
def buildLineOffsets (src : String) : List Nat :=
  lineOffsetsGo (splitCh '\n' src.data) 0

/-- Model of `increaseLineGasCost` acting on the source arena: if both the
source reference and the line are non-null and the source is not skipped,
add `gasCost` on top of the int32-coerced stored value and optionally mark
the line as containing a call. -/
def incLineGas (arena : List Source) (source : Option Nat) (line : Option Nat)
    (gasCost : Int) (isCall : Bool) : List Source :=
  match source, line with
  | some si, some ln =>
    match arena[si]? with
    | some src =>
      if src.skip then arena
      else listSetAt arena si (fun s =>
        { s with
          lineGas := assocSet s.lineGas ln (jsOrInt32Zero (s.lineGas.lookup ln) + gasCost),
          linesWithCalls := if isCall then natSetAdd s.linesWithCalls ln
                            else s.linesWithCalls })
    | none => arena
  | _, _ => arena

structure FoundContract where
  fileName : String
  name : String
  data : ContractData
deriving DecidableEq, Repr

/-- Model of `findContractByDeployedBytecode`: first (file, contract) in
bundle order whose `deployedBytecode.object` equals the fetched hex
exactly. -/
def findContractByDeployedBytecode (codeHexStr : String) (solc : SolcOutput) :
    Option FoundContract :=
  solc.contracts.findSome? (fun fc =>
    fc.2.findSome? (fun nc =>
      if nc.2.deployedObject = codeHexStr then some ⟨fc.1, nc.1, nc.2⟩ else none))

/-- Model of `getContractWithAddr`: normalize, return the cached contract,
or create one (registered before anything else), fetch code, and when the
bundle matches the deployed bytecode fill in maps and names.  The returned
object reference is modelled by the registry key. -/
def getContractWithAddr (env : Env) (addr : String) (st : ReplayState) :
    String × ReplayState :=
  let addressHexStr := normalizeAddressStr addr
  match st.contracts.lookup addressHexStr with
  | some _ => (addressHexStr, st)
  | none =>
    let code := strip0xStr (env.getCode addressHexStr)
    if code = "" then
      (addressHexStr,
       { st with contracts := st.contracts ++ [(addressHexStr, makeContract addressHexStr)] })
    else
      let base := { makeContract addressHexStr with
        codeHexStr := some code,
        pcToIdx := some (buildPcToInstructionMapping code) }
      match findContractByDeployedBytecode code env.solc with
      | none =>
        (addressHexStr, { st with contracts := st.contracts ++ [(addressHexStr, base)] })
      | some fd =>
        let c := { base with
          constructionCodeHexStr := some fd.data.bytecodeObject,
          constructionPcToIdx := some (buildPcToInstructionMapping fd.data.bytecodeObject),
          name := some fd.name,
          fileName := some fd.fileName,
          sourceMap := some (parseSourceMap fd.data.deployedSourceMap),
          constructorSourceMap := some (parseSourceMap fd.data.bytecodeSourceMap) }
        (addressHexStr, { st with contracts := st.contracts ++ [(addressHexStr, c)] })

/-- Model of `getSourceForFilename`: cached by file name, else created and
registered (by file name always; by id only when the bundle knows the
file).  Skip filters are substring tests; empty text is falsy so it gets no
line offsets. -/
def getSourceForFilename (env : Env) (fileName : String) (st : ReplayState) :
    Nat × ReplayState :=
  match st.sourceByFilename.lookup fileName with
  | some idx => (idx, st)
  | none =>
    let idx := st.arena.length
    match env.solc.sources.lookup fileName with
    | none =>
      (idx, { st with
        arena := st.arena ++ [makeSource none (some fileName)],
        sourceByFilename := assocSet st.sourceByFilename fileName idx })
    | some sid =>
      let skip := env.skipFiles.any (fun str => jsIncludesCh fileName.data str.data)
      let text := if skip then none else env.readSource fileName
      let lineOffsets := match text with
        | some t => if t = "" then none else some (buildLineOffsets t)
        | none => none
      let src : Source := ⟨some sid, some fileName, skip, text, lineOffsets, [], []⟩
      (idx, { st with
        arena := st.arena ++ [src],
        sourceByFilename := assocSet st.sourceByFilename fileName idx,
        sourceById := assocSet st.sourceById (some sid) idx })

/-- Model of `getSourceWithId`: cached by id (the JS object key stringifies
NaN, so `none` is a valid cache key), else resolve the file name through the
bundle with a strict `===` comparison (false for NaN) and delegate; with no
file name a skeletal source is registered under the id. -/
def getSourceWithId (env : Env) (sourceId : Option Int) (st : ReplayState) :
    Nat × ReplayState :=
  match st.sourceById.lookup sourceId with
  | some idx => (idx, st)
  | none =>
    let fileName := (env.solc.sources.find? (fun p =>
      match sourceId with
      | some v => p.2 = v
      | none => false)).map (fun p => p.1)
    match fileName with
    | none =>
      let idx := st.arena.length
      (idx, { st with
        arena := st.arena ++ [makeSource sourceId none],
        sourceById := assocSet st.sourceById sourceId idx })
    | some fn => getSourceForFilename env fn st

structure SourcePos where
  source : Option Nat
  line : Option Nat
  isSynthOp : Bool
deriving DecidableEq, Repr

/-- Model of `getSourcePosition`.  A missing pcToIdx entry or instruction
index makes the JS destructuring of `undefined` throw (`typeError`); a
source-map entry with `f = -1` is synthetic; otherwise the source is
resolved by id, registered into `contract.sourcesById` on first sight, and
the line found by binary search over the line offsets. -/
def getSourcePosition (env : Env) (call : Frame) (log : StructLog)
    (st : ReplayState) : Except Err (SourcePos × ReplayState) :=
  match st.contracts.lookup call.contractKey with
  | none => .error .typeError
  | some contract =>
    match (if call.isConstructionCall then contract.constructionPcToIdx
           else contract.pcToIdx) with
    | none => .ok (⟨none, none, false⟩, st)
    | some p =>
      match (if call.isConstructionCall then contract.constructorSourceMap
             else contract.sourceMap) with
      | none => .ok (⟨none, none, false⟩, st)
      | some sm =>
        match p.lookup log.pc with
        | none => .error .typeError
        | some instructionIdx =>
          match sm[instructionIdx]? with
          | none => .error .typeError
          | some entry =>
            if entry.f = some (-1) then .ok (⟨none, none, true⟩, st)
            else
              .ok
                (⟨some (getSourceWithId env entry.f st).1,
                  (match (getSourceWithId env entry.f st).2.arena[(getSourceWithId env entry.f st).1]? with
                   | some src =>
                     match src.lineOffsets with
                     | some offs => some (closestJs offs entry.s)
                     | none => none
                   | none => none),
                  false⟩,
                 if (contract.sourcesById.lookup entry.f).isNone then
                   { (getSourceWithId env entry.f st).2 with
                     contracts := assocUpd (getSourceWithId env entry.f st).2.contracts
                       call.contractKey (fun c =>
                         { c with sourcesById :=
                             c.sourcesById ++ [(entry.f, some (getSourceWithId env entry.f st).1)] }) }
                 else (getSourceWithId env entry.f st).2)

/-- Model of the unwind `while` loop of `main` (step 1 of the engine): pop
frames while the log depth is below the stack top, credit each popped
frame's span to its contract using the preceding log, and charge the
reconciled call cost to the caller's recorded outgoing-call line.  Reading
past either end of the JS array yields `undefined` and a type error.  The
JS guard `log.depth - bottomDepth < callStack.length - 1` is written per
stack shape: `-1` for the empty array, `rest.length` for a non-empty one
(i.e. `(prevTopCall :: rest).length - 1`). -/
def unwindLoop (logs : List StructLog) (log : StructLog) (bottomDepth : Int)
    (i : Nat) :
    List Frame → List (String × Contract) → List Source →
    Except Err (List Frame × List (String × Contract) × List Source)
  | [], contracts, arena =>
    if log.depth - bottomDepth < -1 then .error .typeError
    else .ok ([], contracts, arena)
  | prevTopCall :: rest, contracts, arena =>
    if log.depth - bottomDepth < (rest.length : Int) then
      match i with
      | 0 => .error .typeError
      | i0 + 1 =>
        match logs[i0]? with
        | none => .error .typeError
        | some prevLog =>
          match rest with
          | [] => .error .typeError
          | topCall :: _ =>
            unwindLoop logs log bottomDepth i rest
              (assocUpd contracts prevTopCall.contractKey (fun c =>
                { c with totalGasCost := c.totalGasCost +
                    (prevTopCall.gasBefore - prevLog.gas + getGasCost prevLog) }))
              (incLineGas arena topCall.outgoingCallSource topCall.outgoingCallLine
                (topCall.gasBeforeOutgoingCall - log.gas) true)
    else .ok (prevTopCall :: rest, contracts, arena)

/-- String payload of a truthy JsVal (the call-target branch only reads it
after checking truthiness). -/
def jsStrOf : JsVal → String
  | .jstr s => s
  | _ => ""

/-- Record the outgoing call position and gas on the calling frame
(`call.outgoingCallSource = source` etc. in `main`). -/
def markOutgoing (pos : SourcePos) (g : Int) (f : Frame) : Frame :=
  { f with outgoingCallSource := pos.source, outgoingCallLine := pos.line,
           gasBeforeOutgoingCall := g }

/-- The else-branch of step 3 of the engine: charge the step's cost to the
contract's synthetic counter or to the resolved source line. -/
def attrGas (gasCost : Int) (call : Frame) (pos : SourcePos)
    (st2 : ReplayState) : ReplayState :=
  if pos.isSynthOp then
    { st2 with contracts := assocUpd st2.contracts call.contractKey (fun c =>
        { c with synthGasCost := c.synthGasCost + gasCost }) }
  else
    { st2 with arena := incLineGas st2.arena pos.source pos.line gasCost false }

/-- The push-branch of step 3 of the engine: mark the calling frame (at
list position `idx`), resolve the target contract, and push the new frame
(`gasBefore = nextLog.gas`). -/
def pushOutgoing (env : Env) (logs : List StructLog) (i : Nat)
    (log nextLog : StructLog) (pos : SourcePos) (idx : Nat)
    (st2 : ReplayState) : ReplayState :=
  { (getContractWithAddr env (jsStrOf (getCallTarget log i logs).addressHexStr)
      { st2 with callStack := listSetAt st2.callStack idx (markOutgoing pos log.gas) }).2
    with callStack :=
      { makeCallStackItem
          (getContractWithAddr env (jsStrOf (getCallTarget log i logs).addressHexStr)
            { st2 with callStack := listSetAt st2.callStack idx (markOutgoing pos log.gas) }).1
        with isConstructionCall := (getCallTarget log i logs).isConstructionCall,
             gasBefore := nextLog.gas } ::
      (getContractWithAddr env (jsStrOf (getCallTarget log i logs).addressHexStr)
        { st2 with callStack := listSetAt st2.callStack idx (markOutgoing pos log.gas) }).2.callStack }

/-- Classification of the instruction once the source position is known
(the tail of the loop body): push a frame for a call/create that took
effect (the next log exists, has a truthy target, and is one level
deeper), otherwise attribute the gas. -/
def stepAfterSource (env : Env) (logs : List StructLog) (i : Nat)
    (log : StructLog) (call : Frame) (pos : SourcePos) (idx : Nat)
    (st2 : ReplayState) : Except Err ReplayState :=
  match logs[i + 1]? with
  | some nextLog =>
    if (getCallTarget log i logs).addressHexStr.truthy ∧ nextLog.depth > log.depth then
      if nextLog.depth ≠ log.depth + 1 then .error .assertFail
      else .ok (pushOutgoing env logs i log nextLog pos idx st2)
    else .ok (attrGas (getGasCost log) call pos st2)
  | none => .ok (attrGas (getGasCost log) call pos st2)

/-- Model of one iteration of the replay loop of `main` at index `i`:
unwind, assert a non-empty stack, locate the current frame and its source
position, then classify the instruction via `stepAfterSource`. -/
def replayStep (env : Env) (logs : List StructLog) (bottomDepth : Int) (i : Nat)
    (st : ReplayState) : Except Err ReplayState :=
  match logs[i]? with
  | none => .ok st
  | some log =>
    match unwindLoop logs log bottomDepth i st.callStack st.contracts st.arena with
    | .error e => .error e
    | .ok (stack1, contracts1, arena1) =>
      if stack1.length = 0 then .error .assertFail
      else
        match jsStackIdx stack1 (log.depth - bottomDepth) with
        | none => .error .typeError
        | some call =>
          match getSourcePosition env call log
              { st with callStack := stack1, contracts := contracts1,
                        arena := arena1 } with
          | .error e => .error e
          | .ok (pos, st2) =>
            stepAfterSource env logs i log call pos
              (st2.callStack.length - 1 - (log.depth - bottomDepth).toNat) st2

/-- Iterate `replayStep` over indices `i, i+1, ...` while `i` is in range;
`fuel` counts remaining iterations (the loop itself runs `logs.length`
times). -/
def replaySteps (env : Env) (logs : List StructLog) (bottomDepth : Int) :
    Nat → Nat → ReplayState → Except Err ReplayState
  | 0, _, st => .ok st
  | fuel + 1, i, st =>
    if i < logs.length then
      match replayStep env logs bottomDepth i st with
      | .error e => .error e
      | .ok st2 => replaySteps env logs bottomDepth fuel (i + 1) st2
    else .ok st

inductive RunResult where
  | notAContract : RunResult
  | finished : ReplayState → RunResult
  | failed : Err → RunResult
deriving DecidableEq, Repr

/-- JS objects are always truthy; `getContractWithAddr` always returns the
(possibly skeletal) contract object, so the `!entryContract` test in `main`
is constantly false. -/
def jsObjFalsy (_contractKey : String) : Bool := false

/-- Initial engine state: the entry contract resolved against an empty
registry, and a single entry frame referencing it. -/
def initialState (env : Env) (entryAddr : String) (isC : Bool) : ReplayState :=
  { (getContractWithAddr env entryAddr ⟨[], [], [], [], []⟩).2 with
    callStack :=
      [{ makeCallStackItem
          (getContractWithAddr env entryAddr ⟨[], [], [], [], []⟩).1 with
         isConstructionCall := isC }] }

/-- Model of `main` from the point the receipt and transaction are known:
resolve the entry contract, test the (dead) not-a-contract branch, replay
the whole trace, then assign the entry contract's total from the first and
last logs. -/
def mainCore (env : Env) (entryAddr : String) (isEntryCallConstruction : Bool)
    (structLogs : List StructLog) : RunResult :=
  if entryAddr = "" then .failed .assertFail
  else if jsObjFalsy (getContractWithAddr env entryAddr ⟨[], [], [], [], []⟩).1 then
    .notAContract
  else
    match structLogs[0]? with
    | none => .failed .typeError
    | some firstLog =>
      match replaySteps env structLogs firstLog.depth structLogs.length 0
          (initialState env entryAddr isEntryCallConstruction) with
      | .error e => .failed e
      | .ok st3 =>
        match structLogs.getLast? with
        | none => .failed .typeError
        | some lastLog =>
          .finished
            { st3 with
              contracts := assocUpd st3.contracts
                (getContractWithAddr env entryAddr ⟨[], [], [], [], []⟩).1
                (fun c =>
                  { c with totalGasCost :=
                      firstLog.gas - lastLog.gas + getGasCost lastLog }) }

/-- State after the first `k` iterations of the replay loop (the engine
state "during the replay"), with the same prelude as `mainCore`. -/
def mainCoreUpTo (env : Env) (entryAddr : String) (isEntryCallConstruction : Bool)
    (structLogs : List StructLog) (k : Nat) : Except Err ReplayState :=
  if entryAddr = "" then .error .assertFail
  else
    match structLogs[0]? with
    | none => .error .typeError
    | some firstLog =>
      replaySteps env structLogs firstLog.depth k 0
        (initialState env entryAddr isEntryCallConstruction)

def RunResult.isFinished : RunResult → Bool
  | .finished _ => true
  | _ => false

def lineGasOfResult (r : RunResult) (si k : Nat) : Option Int :=
  match r with
  | .finished st => (st.arena[si]?).bind (fun s => s.lineGas.lookup k)
  | _ => none

def sumTotalsOfResult (r : RunResult) : Option Int :=
  match r with
  | .finished st => some ((st.contracts.map (fun p => p.2.totalGasCost)).sum)
  | _ => none

def entryTotalOfResult (r : RunResult) (key : String) : Option Int :=
  match r with
  | .finished st => (st.contracts.lookup key).map Contract.totalGasCost
  | _ => none

def stackOutSources (r : RunResult) : Option (List (Option Nat)) :=
  match r with
  | .finished st => some (st.callStack.map Frame.outgoingCallSource)
  | _ => none

/-- Explicit value of field `k` in one raw source-map segment: the value
written between the colons when it is given, `none` when the field is
absent or empty (the two cases the decoder treats as "inherit"). -/
def explicitField (seg : List Char) (k : Nat) : Option (List Char) :=
  match (splitCh ':' seg)[k]? with
  | none => none
  | some v => if v = [] then none else some v

/-- Raw value that ends up used for field `k` of a segment: the explicit
value when present, else the carried previous raw value. -/
def pickField (seg : List Char) (k : Nat) (prevF : Option (List Char)) :
    Option (List Char) :=
  match explicitField seg k with
  | some v => some v
  | none => prevF

/-- Modelled from the spec (section 4.5): the low 20 bytes of a stack word
"formatted as 40 lowercase hex chars with leading zeros", for comparison
with the code's `normalizeAddress`. -/
def padTo40 (s : String) : String :=
  if s.length < 40 then (⟨List.replicate (40 - s.length) '0'⟩ : String) ++ s else s

/-- Spec-side address form of a hex word (see `padTo40`). -/
def low20Hex (w : String) : String :=
  padTo40 (natToHexStr (parseHexNat w % 2 ^ 160))

/-- Normalized form of the all-zero entry address used by the concrete
runs below. -/
def keyZero : String := "0000000000000000000000000000000000000000"

/-- Normalized form of the stack word "1" (the callee address in the
concrete runs below). -/
def keyOne : String := "0000000000000000000000000000000000000001"

/-- Bundle entry for a one-byte contract (`ADD`) whose only instruction
maps to source id 0, offset 0. -/
def cdOne : ContractData := ⟨"01", "0:1:0", "01", "0:1:0"⟩

/-- Bundle entry for a two-byte contract (two `ADD`s) whose instructions
map to offsets 0 and 2 of source id 0. -/
def cdTwo : ContractData := ⟨"0101", "0:1:0;2:1:0", "0101", "0:1:0;2:1:0"⟩

/-- Environment with one known one-instruction contract at `keyZero` and a
readable one-line source. -/
def envNeg : Env :=
  ⟨⟨[("a.sol", 0)], [("a.sol", [("A", cdOne)])]⟩, [],
   fun a => if a = keyZero then "01" else "",
   fun fn => if fn = "a.sol" then some "line1" else none⟩

/-- A single trace step with a negative cost on a non-terminal opcode (the
documented trace-provider quirk that `getGasCost` does not compensate). -/
def logNeg : StructLog := ⟨0, "ADD", 100, -5, 1, []⟩

/-- The same step with a positive cost. -/
def logPos : StructLog := ⟨0, "ADD", 100, 5, 1, []⟩

/-- Environment with two contracts (at `keyZero` and `keyOne`) that are
absent from the compiler bundle. -/
def envTwo : Env :=
  ⟨⟨[], []⟩, [],
   fun a => if a = keyZero then "00" else if a = keyOne then "00" else "",
   fun _ => none⟩

/-- Trace in which the entry contract CALLs the contract at `keyOne`,
which spends 5 gas and returns; reading the logs: enter at 100 gas, the
callee runs from 80 down to 75, control returns at 70 gas. -/
def traceTwo : List StructLog :=
  [⟨0, "CALL", 100, 10, 1, ["1", "0"]⟩,
   ⟨0, "PUSH1", 80, 5, 2, []⟩,
   ⟨1, "STOP", 75, 0, 2, []⟩,
   ⟨1, "STOP", 70, 0, 1, []⟩]

/-- Environment where the entry contract is known (bundle `cdTwo`) with a
two-line source, and the callee at `keyOne` is unknown. -/
def envKnown : Env :=
  ⟨⟨[("a.sol", 0)], [("a.sol", [("A", cdTwo)])]⟩, [],
   fun a => if a = keyZero then "0101" else if a = keyOne then "00" else "",
   fun fn => if fn = "a.sol" then some ("ab" ++ "\n" ++ "cd") else none⟩

/-- Trace in which the known entry contract CALLs out from its pc 0 (line
0), the callee returns immediately, and the entry contract then executes
one more op: after the return the entry frame is no longer waiting. -/
def traceKnown : List StructLog :=
  [⟨0, "CALL", 100, 10, 1, ["1", "0"]⟩,
   ⟨0, "STOP", 80, 0, 2, []⟩,
   ⟨1, "ADD", 70, 3, 1, []⟩]

/-- Environment whose chain collaborator returns empty code (`0x`) for
every address: the transaction target is not a contract. -/
def envNoCode : Env := ⟨⟨[], []⟩, [], fun _ => "0x", fun _ => none⟩

/-- Frames for a direct check of the unwind loop: `fTop` is the popped
frame, `fBot` the caller that stays. -/
def fTop : Frame := ⟨"x", false, 80, 0, none, none⟩

def fBot : Frame := ⟨"y", false, 0, 100, some 3, some 7⟩

def logsUnwind : List StructLog :=
  [⟨0, "CALL", 100, 10, 1, []⟩, ⟨0, "STOP", 90, 0, 2, []⟩]

def logUnwindNow : StructLog := ⟨1, "STOP", 70, 0, 1, []⟩

/-- Property claimed of a decoded entry against its raw segment: every
field explicitly written in the segment appears decoded in the entry
(numeric fields through `Number`, the jump tag verbatim). -/
def explicitFields (e : SMEntry) (seg : List Char) : Prop :=
  (∀ v, explicitField seg 0 = some v → e.s = jsNumberCh v) ∧
  (∀ v, explicitField seg 1 = some v → e.l = jsNumberCh v) ∧
  (∀ v, explicitField seg 2 = some v → e.f = jsNumberCh v) ∧
  (∀ v, explicitField seg 3 = some v → e.j = some v.asString)

/-- Property claimed of consecutive decoded entries: every field absent or
empty in the raw segment of `e2` is inherited from `e1`. -/
def inheritFields (e1 e2 : SMEntry) (seg : List Char) : Prop :=
  (explicitField seg 0 = none → e2.s = e1.s) ∧
  (explicitField seg 1 = none → e2.l = e1.l) ∧
  (explicitField seg 2 = none → e2.f = e1.f) ∧
  (explicitField seg 3 = none → e2.j = e1.j)

/-- A 21-byte stack word (value `2^160`): valid hex, at most 32 bytes,
value outside the address range. -/
def w0 : String := "010000000000000000000000000000000000000000"

/-- Every accumulated line-gas entry in the arena lies in `[0, bnd]`. -/
def ABnd (arena : List Source) (bnd : Int) : Prop :=
  ∀ src ∈ arena, ∀ e ∈ src.lineGas, 0 ≤ e.2 ∧ e.2 ≤ bnd

/-- Every non-top frame's `gasBeforeOutgoingCall` was copied from the `gas`
field of some log strictly before index `i` (it was set when that frame
pushed its most recent call). -/
def FramesFromLogs (logs : List StructLog) (i : Nat) (stack : List Frame) : Prop :=
  ∀ j f, stack[j]? = some f → 1 ≤ j →
    ∃ k lg, k < i ∧ logs[k]? = some lg ∧ f.gasBeforeOutgoingCall = lg.gas

/-- Sum of the normalized gas costs of the first `i` logs. -/
def partialGc (logs : List StructLog) (i : Nat) : Int :=
  ((logs.take i).map getGasCost).sum

/-- Sum of the normalized gas costs of the whole trace. -/
def totalGc (logs : List StructLog) : Int := (logs.map getGasCost).sum

/-- Engine invariant for the line-gas bound: every entry lies between 0 and
a budget that grows by one step cost per processed log and by one gas span
per completed pop (pops so far is at most `i + 1` minus the stack depth). -/
def C8Inv (logs : List StructLog) (G : Int) (i : Nat) (st : ReplayState) : Prop :=
  ABnd st.arena
    (partialGc logs i + ((i : Int) + 1 - st.callStack.length) * G) ∧
  FramesFromLogs logs i st.callStack ∧
  1 ≤ st.callStack.length ∧ st.callStack.length ≤ i + 1

/-- Well-behaved trace: nonnegative normalized costs, gas values between 0
and `G` and non-increasing along the trace, and a total budget within the
signed 32-bit range. -/
def GoodTrace (logs : List StructLog) (G : Int) : Prop :=
  (∀ l ∈ logs, 0 ≤ getGasCost l) ∧
  (∀ l ∈ logs, 0 ≤ l.gas ∧ l.gas ≤ G) ∧
  0 ≤ G ∧
  logs.Chain' (fun a b => b.gas ≤ a.gas) ∧
  totalGc logs + logs.length * G ≤ 2 ^ 31 - 1

/-!
Theorems.  Sanity checks of the embedding first, then helper lemmas, then
one theorem per claim (with witnesses and counterexamples where required).
-/

example : parseSourceMap "0:1:0" = [⟨some 0, some 1, some 0, none⟩] := by decide

example : parseSourceMap "0:1:0;2::;:3:1:o" =
    [⟨some 0, some 1, some 0, none⟩,
     ⟨some 2, some 1, some 0, none⟩,
     ⟨some 2, some 3, some 1, some "o"⟩] := by decide

example : buildPcToInstructionMapping "6001600201" =
    [(0, 0), (2, 1), (4, 2)] := by decide

example : normalizeAddressStr "0xff" =
    "00000000000000000000000000000000000000ff" := by decide

example :
    lineGasOfResult (mainCore envNeg "0x00" false [logNeg]) 0 0 = some (-5) := by
  decide

theorem listSetAt_getElem_self (l : List α) (f : α → α) :
    ∀ i : Nat, (listSetAt l i f)[i]? = (l[i]?).map f := by
  induction l with
  | nil => intro i; simp [listSetAt]
  | cons x xs ih =>
    intro i
    cases i with
    | zero => simp [listSetAt]
    | succ j => simpa [listSetAt] using ih j

theorem assocSet_lookup_self [BEq κ] [LawfulBEq κ] (l : List (κ × α)) (k : κ)
    (v : α) : (assocSet l k v).lookup k = some v := by
  induction l with
  | nil => simp [assocSet, List.lookup]
  | cons p rest ih =>
    by_cases h : p.1 == k
    · simp [assocSet, h, List.lookup]
    · simp only [assocSet, h, Bool.false_eq_true, if_false]
      rw [List.lookup]
      have hne : ¬ p.1 = k := by simpa using h
      have hk : (k == p.1) = false := by
        simp only [beq_eq_false_iff_ne, ne_eq]
        exact fun he => hne he.symm
      simp [hk, ih]

/-- C10: `normalizeAddress` returns every falsy input (null, undefined, the
empty string) unchanged rather than producing a 40-character hex string, so
a missing address propagates through normalization as-is. -/
theorem c10_normalize_falsy_identity :
    normalizeAddress .jnull = .jnull ∧
    normalizeAddress .jundef = .jundef ∧
    normalizeAddress (.jstr "") = .jstr "" ∧
    (normalizeAddress .jnull).truthy = false ∧
    (normalizeAddress .jundef).truthy = false ∧
    (normalizeAddress (.jstr "")).truthy = false := by decide

/-- C9: a line-gas charge reads the stored entry through the `| 0`
coercion (an absent entry reads as 0, a present one is coerced to signed
32 bits) and then adds; the coercion is the identity exactly on the signed
32-bit range, and beyond `2^31 - 1` the stored value is read back truncated
modulo `2^32` into that range. -/
theorem c9_int32_coercion (arena : List Source) (si ln : Nat) (g : Int)
    (isCall : Bool) (src : Source) (h : arena[si]? = some src)
    (hskip : src.skip = false) :
    ((incLineGas arena (some si) (some ln) g isCall)[si]?).map
        (fun s => s.lineGas.lookup ln) =
      some (some (jsOrInt32Zero (src.lineGas.lookup ln) + g)) ∧
    jsOrInt32Zero none = 0 ∧
    (∀ x : Int, -(2 ^ 31) ≤ x → x ≤ 2 ^ 31 - 1 → toInt32 x = x) ∧
    (∀ x : Int, toInt32 x % 2 ^ 32 = x % 2 ^ 32 ∧
      -(2 ^ 31) ≤ toInt32 x ∧ toInt32 x < 2 ^ 31) ∧
    (∀ x : Int, 2 ^ 31 - 1 < x → toInt32 x ≠ x) := by
  have h31 : (2 : Int) ^ 31 = 2147483648 := by norm_num
  have h32 : (2 : Int) ^ 32 = 4294967296 := by norm_num
  refine ⟨?_, rfl, ?_, ?_, ?_⟩
  · simp only [incLineGas, h, hskip, Bool.false_eq_true, if_false,
      listSetAt_getElem_self, Option.map_map]
    simp [assocSet_lookup_self]
  · intro x hx1 hx2
    simp only [toInt32, h31, h32] at *
    omega
  · intro x
    simp only [toInt32, h31, h32]
    omega
  · intro x hx
    simp only [toInt32, h31, h32] at *
    omega

theorem c9_int32_coercion_witness :
    ((incLineGas [makeSource (some 0) none] (some 0) (some 0) 5 false)[0]?).map
        (fun s => s.lineGas.lookup 0) =
      some (some (jsOrInt32Zero ((makeSource (some 0) none).lineGas.lookup 0) + 5)) ∧
    jsOrInt32Zero none = 0 ∧
    (∀ x : Int, -(2 ^ 31) ≤ x → x ≤ 2 ^ 31 - 1 → toInt32 x = x) ∧
    (∀ x : Int, toInt32 x % 2 ^ 32 = x % 2 ^ 32 ∧
      -(2 ^ 31) ≤ toInt32 x ∧ toInt32 x < 2 ^ 31) ∧
    (∀ x : Int, 2 ^ 31 - 1 < x → toInt32 x ≠ x) :=
  c9_int32_coercion [makeSource (some 0) none] 0 0 5 false
    (makeSource (some 0) none) rfl rfl

theorem buildGo_mem_ge (chars : List Char) :
    ∀ (fuel pc0 idx0 q i2 : Nat), (q, i2) ∈ buildGo chars fuel pc0 idx0 →
      pc0 ≤ q := by
  intro fuel
  induction fuel with
  | zero => intro pc0 idx0 q i2 h; simp [buildGo] at h
  | succ f ih =>
    intro pc0 idx0 q i2 h
    rw [buildGo] at h
    by_cases hg : 2 * pc0 < chars.length
    · simp only [hg, if_true] at h
      rcases List.mem_cons.mp h with he | ht
      · obtain ⟨h1, h2⟩ := Prod.mk.inj he
        omega
      · have := ih _ _ _ _ ht
        omega
    · simp [hg] at h

theorem buildGo_nil_of_ge (chars : List Char) (fuel p i : Nat)
    (h : chars.length ≤ 2 * p) : buildGo chars fuel p i = [] := by
  cases fuel with
  | zero => rfl
  | succ f => rw [buildGo]; simp [Nat.not_lt.mpr h]

theorem buildGo_trunc_last (chars : List Char) (pc idx : Nat)
    (hpush : 0x60 ≤ byteAt chars pc ∧ byteAt chars pc ≤ 0x7f)
    (htr : chars.length < 2 * (pc + (byteAt chars pc - 0x60 + 1) + 1)) :
    ∀ (fuel pc0 idx0 : Nat), (pc, idx) ∈ buildGo chars fuel pc0 idx0 →
      ∀ q i2, (q, i2) ∈ buildGo chars fuel pc0 idx0 → q ≤ pc := by
  intro fuel
  induction fuel with
  | zero => intro pc0 idx0 h; simp [buildGo] at h
  | succ f ih =>
    intro pc0 idx0 h q i2 hq
    rw [buildGo] at h hq
    by_cases hg : 2 * pc0 < chars.length
    · simp only [hg, if_true] at h hq
      rcases List.mem_cons.mp h with he | ht
      · obtain ⟨hpc, hidx⟩ := Prod.mk.inj he
        subst hpc
        have hstep :
            (if 0x60 ≤ byteAt chars pc ∧ byteAt chars pc ≤ 0x7f
             then (byteAt chars pc - 0x60 + 1) + 1 else 1) =
              (byteAt chars pc - 0x60 + 1) + 1 := by
          simp [hpush]
        rw [hstep] at hq
        rw [buildGo_nil_of_ge chars f _ _ (by omega)] at hq
        rcases List.mem_cons.mp hq with he2 | ht2
        · obtain ⟨hq1, hq2⟩ := Prod.mk.inj he2
          omega
        · simp at ht2
      · rcases List.mem_cons.mp hq with he2 | ht2
        · obtain ⟨hq1, hq2⟩ := Prod.mk.inj he2
          have := buildGo_mem_ge chars _ _ _ _ _ ht
          omega
        · exact ih _ _ ht _ _ ht2
    · simp [hg] at h

/-- C4 counterexample: on the bytecode `61ff` (a PUSH2 whose two immediate
bytes extend past the end) the mapper does not fail: it returns the mapping
`{0 ↦ 0}`.  Only the spec-side mapper produces a BytecodeTruncated
error, so the claimed behaviour differs from the code. -/
theorem c4_counterexample :
    buildPcToInstructionMapping "61ff" = [(0, 0)] ∧
    buildPcToInstructionMappingSpec "61ff" = .error .truncated :=
  ⟨by decide, rfl⟩

/-- C4 amended: when a PUSH instruction's immediates extend past the end of
the bytecode, the mapper does not fail with a BytecodeTruncated error (no
such error exists in the code); it records the PUSH's own PC as the final
mapping entry and returns the mapping. -/
theorem c4_truncated_push_returns_mapping (code : String) (pc idx : Nat)
    (hmem : (pc, idx) ∈ buildPcToInstructionMapping code)
    (hpush : 0x60 ≤ byteAt code.data pc ∧ byteAt code.data pc ≤ 0x7f)
    (htr : code.data.length < 2 * (pc + (byteAt code.data pc - 0x60 + 1) + 1)) :
    ∀ q i2, (q, i2) ∈ buildPcToInstructionMapping code → q ≤ pc :=
  fun q i2 hq =>
    buildGo_trunc_last code.data pc idx hpush htr _ 0 0 hmem q i2 hq

theorem c4_truncated_push_returns_mapping_witness :
    (0, 0) ∈ buildPcToInstructionMapping "61ff" ∧
    (0x60 ≤ byteAt "61ff".data 0 ∧ byteAt "61ff".data 0 ≤ 0x7f) ∧
    "61ff".data.length < 2 * (0 + (byteAt "61ff".data 0 - 0x60 + 1) + 1) ∧
    (0 : Nat) ≤ 0 :=
  ⟨by decide, by decide, by decide,
   c4_truncated_push_returns_mapping "61ff" 0 0 (by decide) (by decide)
     (by decide) 0 0 (by decide)⟩

/-- C5 (code bug): `getContractWithAddr` always returns a (possibly
skeletal) contract object even when the chain returns empty code, so the
`!entryContract` guard in `main` never fires: no run ever produces the
"target is not a contract" clean return, and on a non-contract entry
(empty code hence an empty trace) the run instead crashes reading
`structLogs[0]`. -/
theorem c5_not_a_contract_branch_dead :
    (∀ (env : Env) (a : String) (c : Bool) (logs : List StructLog),
      mainCore env a c logs ≠ .notAContract) ∧
    mainCore envNoCode "0xff" false [] = .failed .typeError := by
  constructor
  · intro env a c logs h
    unfold mainCore at h
    by_cases ha : a = ""
    · simp [ha] at h
    · simp only [ha, if_false, jsObjFalsy, Bool.false_eq_true] at h
      split at h
      · exact absurd h (by simp)
      · split at h
        · exact absurd h (by simp)
        · split at h
          · exact absurd h (by simp)
          · exact absurd h (by simp)
  · decide

theorem scanSameDepth_eq_find (d : Int) :
    ∀ l : List StructLog, scanSameDepth d l = l.find? (fun x => x.depth == d) := by
  intro l
  induction l with
  | nil => rfl
  | cons x rest ih =>
    rw [scanSameDepth, List.find?_cons]
    by_cases h : x.depth = d
    · simp [h]
    · have hb : (x.depth == d) = false := by
        simp only [beq_eq_false_iff_ne, ne_eq]; exact h
      simp [h, hb, ih]

theorem jsListIdx_last (l : List String) :
    jsListIdx l ((l.length : Int) - 1) = l.getLast? := by
  cases l with
  | nil => decide
  | cons x xs =>
    simp only [jsListIdx]
    rw [if_neg (by simp only [List.length_cons]; push_cast; omega),
      List.getLast?_eq_getElem?]
    congr 1
    simp only [List.length_cons]
    omega

/-- C2: for a trace log with op CREATE or CREATE2 at index `i`, the
call-target extractor returns a construction call whose address is the
normalized stack top of the first log after `i` at the same depth, and null
when no such later log exists. -/
theorem c2_create_target (logs : List StructLog) (i : Nat) (log : StructLog)
    (_hlog : logs[i]? = some log) (hop : log.op = "CREATE" ∨ log.op = "CREATE2") :
    (getCallTarget log i logs).isConstructionCall = true ∧
    (getCallTarget log i logs).addressHexStr =
      (match (logs.drop (i + 1)).find? (fun nl => nl.depth == log.depth) with
       | some nl => normalizeAddress (jsOfOption nl.stack.getLast?)
       | none => JsVal.jnull) := by
  clear _hlog
  have hnotcall : ¬(log.op = "CALL" ∨ log.op = "CALLCODE" ∨
      log.op = "DELEGATECALL" ∨ log.op = "STATICCALL") := by
    rcases hop with h | h <;> rw [h] <;> decide
  rw [getCallTarget]
  simp only [hnotcall, if_false, hop, if_true]
  rw [scanSameDepth_eq_find]
  cases hf : (logs.drop (i + 1)).find? (fun nl => nl.depth == log.depth) with
  | none => simp
  | some nl => simp [jsListIdx_last]

theorem c2_create_target_witness :
    (getCallTarget (⟨0, "CREATE", 100, 32000, 1, []⟩ : StructLog) 0
        [⟨0, "CREATE", 100, 32000, 1, []⟩,
         ⟨0, "STOP", 50, 0, 2, []⟩,
         ⟨3, "POP", 40, 2, 1, ["1"]⟩]).isConstructionCall = true ∧
    (getCallTarget (⟨0, "CREATE", 100, 32000, 1, []⟩ : StructLog) 0
        [⟨0, "CREATE", 100, 32000, 1, []⟩,
         ⟨0, "STOP", 50, 0, 2, []⟩,
         ⟨3, "POP", 40, 2, 1, ["1"]⟩]).addressHexStr =
      (match ([⟨0, "CREATE", 100, 32000, 1, []⟩,
               ⟨0, "STOP", 50, 0, 2, []⟩,
               ⟨3, "POP", 40, 2, 1, ["1"]⟩ ] : List StructLog).drop 1 |>.find?
            (fun nl => nl.depth == (⟨0, "CREATE", 100, 32000, 1, []⟩ : StructLog).depth) with
       | some nl => normalizeAddress (jsOfOption nl.stack.getLast?)
       | none => JsVal.jnull) :=
  c2_create_target _ 0 _ rfl (Or.inl rfl)

theorem smField_pick (seg : List Char) (k : Nat) (prevF : Option (List Char)) :
    smField ((splitCh ':' seg)[k]?) prevF =
      (pickField seg k prevF, pickField seg k prevF) := by
  unfold smField pickField explicitField
  cases h : (splitCh ':' seg)[k]? with
  | none => rfl
  | some v =>
    by_cases hv : v = []
    · simp [hv]
    · simp [hv]

theorem smStep_char (prev : SMPrev) (seg : List Char) :
    smStep prev seg =
      (⟨jsNumberOpt (pickField seg 0 prev.ps), jsNumberOpt (pickField seg 1 prev.pl),
        jsNumberOpt (pickField seg 2 prev.pf),
        (pickField seg 3 prev.pj).map List.asString⟩,
       ⟨pickField seg 0 prev.ps, pickField seg 1 prev.pl,
        pickField seg 2 prev.pf, pickField seg 3 prev.pj⟩) := by
  simp only [smStep, smField_pick]

theorem smStep_pair_fields (prev : SMPrev) (s0 s1 : List Char) :
    explicitFields (smStep (smStep prev s0).2 s1).1 s1 ∧
    inheritFields (smStep prev s0).1 (smStep (smStep prev s0).2 s1).1 s1 := by
  rw [smStep_char prev s0, smStep_char]
  constructor
  · refine ⟨?_, ?_, ?_, ?_⟩ <;> (intro v hv; simp [pickField, hv, jsNumberOpt])
  · refine ⟨?_, ?_, ?_, ?_⟩ <;> (intro hv; simp [pickField, hv])

theorem parseGo_consecutive :
    ∀ (segs : List (List Char)) (prev : SMPrev) (i : Nat) (e1 e2 : SMEntry)
      (seg : List Char),
      (parseSourceMapGo prev segs)[i]? = some e1 →
      (parseSourceMapGo prev segs)[i + 1]? = some e2 →
      segs[i + 1]? = some seg →
      explicitFields e2 seg ∧ inheritFields e1 e2 seg := by
  intro segs
  induction segs with
  | nil => intro prev i e1 e2 seg h1; simp [parseSourceMapGo] at h1
  | cons s0 rest ih =>
    intro prev i e1 e2 seg h1 h2 hseg
    rw [parseSourceMapGo] at h1 h2
    cases i with
    | zero =>
      cases rest with
      | nil => simp [parseSourceMapGo] at h2
      | cons s1 rest2 =>
        simp only [List.getElem?_cons_zero, List.getElem?_cons_succ,
          Option.some.injEq] at h1 h2 hseg
        rw [parseSourceMapGo] at h2
        simp only [List.getElem?_cons_zero, Option.some.injEq] at h2
        subst h1
        subst h2
        subst hseg
        exact smStep_pair_fields prev s0 s1
    | succ j =>
      simp only [List.getElem?_cons_succ] at h1 h2 hseg
      exact ih (smStep prev s0).2 j e1 e2 seg h1 h2 hseg

/-- C3: for every raw source map and every decoded entry after the first,
each of the four fields s, l, f, j equals the value explicitly written in
that entry's raw segment when the segment gives it, and otherwise equals
the same field of the previous decoded entry. -/
theorem c3_field_inheritance (raw : String) (i : Nat) (e1 e2 : SMEntry)
    (seg : List Char)
    (h1 : (parseSourceMap raw)[i]? = some e1)
    (h2 : (parseSourceMap raw)[i + 1]? = some e2)
    (hseg : (splitCh ';' (trimCh raw.data))[i + 1]? = some seg) :
    explicitFields e2 seg ∧ inheritFields e1 e2 seg :=
  parseGo_consecutive _ _ i e1 e2 seg h1 h2 hseg

theorem c3_field_inheritance_witness :
    explicitFields ⟨some 1, some 4, some 3, some "o"⟩ (":4::o").data ∧
    inheritFields ⟨some 1, some 2, some 3, some "i"⟩
      ⟨some 1, some 4, some 3, some "o"⟩ (":4::o").data :=
  c3_field_inheritance "1:2:3:i;:4::o" 0
    ⟨some 1, some 2, some 3, some "i"⟩ ⟨some 1, some 4, some 3, some "o"⟩
    (":4::o").data (by decide) (by decide) (by decide)

theorem hexDigitsRev_eq_digits :
    ∀ (fuel n : Nat), n ≤ fuel →
      hexDigitsRev fuel n = (Nat.digits 16 n).map hexChar := by
  intro fuel
  induction fuel with
  | zero =>
    intro n hn
    interval_cases n
    simp [hexDigitsRev]
  | succ f ih =>
    intro n hn
    by_cases h0 : n = 0
    · subst h0; simp [hexDigitsRev]
    · rw [hexDigitsRev]
      rw [Nat.digits_def' (by norm_num : 1 < 16) (Nat.pos_of_ne_zero h0)]
      simp only [h0, if_false, List.map_cons]
      congr 1
      have hdiv : n / 16 ≤ f := by
        have := Nat.div_lt_self (Nat.pos_of_ne_zero h0) (by norm_num : 1 < 16)
        omega
      exact ih _ hdiv

theorem length_mk_str (l : List Char) : (⟨l⟩ : String).length = l.length := rfl

theorem length_natToHexStr (n : Nat) :
    (natToHexStr n).length = if n = 0 then 1 else (Nat.digits 16 n).length := by
  by_cases h0 : n = 0
  · subst h0; rfl
  · rw [natToHexStr]
    simp only [h0, if_false]
    rw [length_mk_str, List.length_reverse, hexDigitsRev_eq_digits n n le_rfl,
      List.length_map]

theorem pow16_40 : (16 : Nat) ^ 40 = 2 ^ 160 := by
  have : (16 : Nat) = 2 ^ 4 := by norm_num
  rw [this, ← pow_mul]

theorem digitsLen_le_40 (n : Nat) (h : n < 2 ^ 160) :
    (Nat.digits 16 n).length ≤ 40 := by
  by_cases h0 : n = 0
  · subst h0; simp
  · have hlt : n < 16 ^ 40 := by rw [pow16_40]; exact h
    have := (Nat.lt_pow_iff_log_lt (by norm_num : 1 < 16) h0).mp hlt
    rw [Nat.digits_len 16 n (by norm_num) h0]
    omega

theorem digitsLen_ge_41 (n : Nat) (h : 2 ^ 160 ≤ n) :
    41 ≤ (Nat.digits 16 n).length := by
  have h0 : n ≠ 0 := by
    intro he
    rw [he] at h
    exact absurd h (by norm_num)
  have hge : 16 ^ 40 ≤ n := by rw [pow16_40]; exact h
  have hlog : ¬ Nat.log 16 n < 40 := fun hl =>
    Nat.not_lt.mpr hge ((Nat.lt_pow_iff_log_lt (by norm_num : 1 < 16) h0).mpr hl)
  rw [Nat.digits_len 16 n (by norm_num) h0]
  omega

theorem natToHexStr_le_40 (n : Nat) (h : n < 2 ^ 160) :
    (natToHexStr n).length ≤ 40 := by
  rw [length_natToHexStr]
  by_cases h0 : n = 0
  · simp [h0]
  · simp only [h0, if_false]
    exact digitsLen_le_40 n h

theorem natToHexStr_pos (n : Nat) : 1 ≤ (natToHexStr n).length := by
  rw [length_natToHexStr]
  by_cases h0 : n = 0
  · simp [h0]
  · simp only [h0, if_false]
    have : Nat.digits 16 n ≠ [] := Nat.digits_ne_nil_iff_ne_zero.mpr h0
    have := List.length_pos.mpr this
    omega

theorem length_padTo40 (s : String) (h : s.length ≤ 40) :
    (padTo40 s).length = 40 := by
  rw [padTo40]
  by_cases hlt : s.length < 40
  · simp only [hlt, if_true, String.length_append, length_mk_str,
      List.length_replicate]
    omega
  · simp only [hlt, if_false]
    omega

theorem length_bnPad_ge (s : String) : s.length ≤ (bnPad s 40).length := by
  rw [bnPad]
  by_cases hm : s.length % 40 = 0
  · simp [hm]
  · simp only [hm, if_false, String.length_append, length_mk_str,
      List.length_replicate]
    omega

theorem strip0x_nop (w : String) (hhex : isHexStr w = true) :
    strip0xStr w = w := by
  rw [strip0xStr]
  split
  · next rest heq =>
    exfalso
    rw [isHexStr, heq] at hhex
    simp only [List.all_cons, Bool.and_eq_true] at hhex
    exact absurd hhex.2.1 (by decide)
  · rfl

/-- C6 counterexample: the 21-byte stack word `w0` (value `2^160`) is valid
hex of at most 32 bytes, yet `normalizeAddress` does not return its low 20
bytes as 40 hex characters: bn.js renders the full 41-digit value and pads
it to 80 characters. -/
theorem c6_counterexample :
    isHexStr w0 = true ∧ w0 ≠ "" ∧ w0.length ≤ 64 ∧
    normalizeAddressStr w0 ≠ low20Hex w0 ∧
    (normalizeAddressStr w0).length = 80 := by decide

/-- C6 amended: on a non-empty hex stack word, `normalizeAddress` renders
the word's full value in lowercase hex, left-zero-padded to a multiple of
40 characters; this equals the spec's low-20-bytes 40-character form
exactly when the word's value is below `2^160` (as every genuine 20-byte
address is). -/
theorem c6_low20_iff_small (w : String) (hhex : isHexStr w = true)
    (_hne : w ≠ "") :
    normalizeAddressStr w = low20Hex w ↔ parseHexNat w < 2 ^ 160 := by
  clear _hne
  have hstrip : strip0xStr w = w := strip0x_nop w hhex
  rw [normalizeAddressStr, hstrip, low20Hex]
  constructor
  · intro heq
    by_contra hge
    rw [Nat.not_lt] at hge
    have hL : 41 ≤ (natToHexStr (parseHexNat w)).length := by
      rw [length_natToHexStr]
      have h0 : parseHexNat w ≠ 0 := by
        intro he
        rw [he] at hge
        exact absurd hge (by norm_num)
      simp only [h0, if_false]
      exact digitsLen_ge_41 _ hge
    have hLHS : 41 ≤ (bnPad (natToHexStr (parseHexNat w)) 40).length :=
      le_trans hL (length_bnPad_ge _)
    have hRHS : (padTo40 (natToHexStr (parseHexNat w % 2 ^ 160))).length = 40 :=
      length_padTo40 _ (natToHexStr_le_40 _ (Nat.mod_lt _ (by positivity)))
    have := congrArg String.length heq
    omega
  · intro hlt
    have hmod : parseHexNat w % 2 ^ 160 = parseHexNat w := Nat.mod_eq_of_lt hlt
    rw [hmod]
    have hle : (natToHexStr (parseHexNat w)).length ≤ 40 :=
      natToHexStr_le_40 _ hlt
    have hpos : 1 ≤ (natToHexStr (parseHexNat w)).length :=
      natToHexStr_pos _
    rw [bnPad, padTo40]
    by_cases hm : (natToHexStr (parseHexNat w)).length % 40 = 0
    · have h40 : (natToHexStr (parseHexNat w)).length = 40 := by omega
      simp only [hm, if_true, h40]
      simp
    · have hlt40 : (natToHexStr (parseHexNat w)).length < 40 := by omega
      simp only [hm, if_false, hlt40, if_true]
      have : (natToHexStr (parseHexNat w)).length % 40 =
          (natToHexStr (parseHexNat w)).length := Nat.mod_eq_of_lt hlt40
      rw [this]

theorem c6_low20_iff_small_witness :
    isHexStr "ff" = true ∧ ("ff" : String) ≠ "" ∧
    ((normalizeAddressStr "ff" = low20Hex "ff") ↔ parseHexNat "ff" < 2 ^ 160) :=
  ⟨by decide, by decide, c6_low20_iff_small "ff" (by decide) (by decide)⟩

theorem suffix_cons_step (a : Frame) (l2 res : List Frame)
    (h1 : res.length ≤ l2.length) (h2 : res = l2.drop (l2.length - res.length)) :
    res.length ≤ (a :: l2).length ∧
    res = (a :: l2).drop ((a :: l2).length - res.length) := by
  refine ⟨by simp only [List.length_cons]; omega, ?_⟩
  have hd : (a :: l2).length - res.length = (l2.length - res.length) + 1 := by
    simp only [List.length_cons]
    omega
  rw [hd, List.drop_succ_cons]
  exact h2

theorem unwind_stack_suffix (logs : List StructLog) (log : StructLog)
    (bd : Int) (i : Nat) :
    ∀ (stack : List Frame) (contracts : List (String × Contract))
      (arena : List Source)
      (out : List Frame × List (String × Contract) × List Source),
      unwindLoop logs log bd i stack contracts arena = .ok out →
      out.1.length ≤ stack.length ∧
      out.1 = stack.drop (stack.length - out.1.length) := by
  intro stack
  induction stack with
  | nil =>
    intro contracts arena out h
    simp only [unwindLoop] at h
    split at h
    · simp at h
    · cases h
      simp
  | cons prevTop rest ih =>
    intro contracts arena out h
    simp only [unwindLoop] at h
    split at h
    · split at h
      · simp at h
      · split at h
        · simp at h
        · split at h
          · simp at h
          · have hrec := ih _ _ _ h
            exact suffix_cons_step prevTop _ _ hrec.1 hrec.2
    · cases h
      simp

set_option maxHeartbeats 20000000 in
/-- C7 counterexample: after the call in `traceKnown` returns, the entry
frame is the only frame on the stack (it is not waiting for any nested
call), yet its `outgoingCallSource` is still set to the source recorded at
the CALL: the fields are never cleared on unwind, refuting the claimed
"set iff waiting" equivalence. -/
theorem c7_counterexample :
    stackOutSources (mainCore envKnown "0x00" false traceKnown) =
      some [some 0] := by decide

/-- C7 amended: `outgoingCallSource`/`outgoingCallLine` hold the source
position recorded at the frame's most recent outgoing call (possibly null
when the call site has no known source) and are retained, not cleared, when
the nested call returns: the unwind loop only pops frames, leaving every
surviving frame unchanged (the resulting stack is a suffix of the
original), so a set field does not imply the frame is currently waiting. -/
theorem c7_unwind_preserves_frames (logs : List StructLog) (log : StructLog)
    (bd : Int) (i : Nat) (stack : List Frame)
    (contracts : List (String × Contract)) (arena : List Source)
    (out : List Frame × List (String × Contract) × List Source)
    (h : unwindLoop logs log bd i stack contracts arena = .ok out) :
    out.1 = stack.drop (stack.length - out.1.length) :=
  (unwind_stack_suffix logs log bd i stack contracts arena out h).2

theorem c7_unwind_preserves_frames_witness :
    unwindLoop logsUnwind logUnwindNow 1 1 [fTop, fBot] [] [] =
      .ok ([fBot], [], []) ∧
    ([fBot], ([] : List (String × Contract)), ([] : List Source)).1 =
      [fTop, fBot].drop ([fTop, fBot].length - [fBot].length) :=
  ⟨rfl,
   c7_unwind_preserves_frames logsUnwind logUnwindNow 1 1 [fTop, fBot] [] []
     ([fBot], [], []) rfl⟩

theorem lookup_assocUpd_isSome [BEq κ] (l : List (κ × α)) (k : κ) (f : α → α)
    (k2 : κ) :
    ((assocUpd l k f).lookup k2).isSome = (l.lookup k2).isSome := by
  induction l with
  | nil => rfl
  | cons p rest ih =>
    obtain ⟨pk, pv⟩ := p
    simp only [assocUpd, List.map_cons]
    by_cases hp : pk == k
    · simp only [hp, if_true]
      by_cases hk2 : k2 == pk
      · simp [List.lookup, hk2]
      · simp only [List.lookup, hk2]
        exact ih
    · simp only [hp, Bool.false_eq_true, if_false]
      by_cases hk2 : k2 == pk
      · simp [List.lookup, hk2]
      · simp only [List.lookup, hk2]
        exact ih

theorem lookup_assocUpd_self [BEq κ] [LawfulBEq κ] (l : List (κ × α)) (k : κ)
    (f : α → α) :
    (assocUpd l k f).lookup k = (l.lookup k).map f := by
  induction l with
  | nil => rfl
  | cons p rest ih =>
    obtain ⟨pk, pv⟩ := p
    simp only [assocUpd, List.map_cons]
    by_cases hp : pk == k
    · have hk : (k == pk) = true := by
        simp only [beq_iff_eq] at hp ⊢
        exact hp.symm
      rw [if_pos hp]
      simp [List.lookup, hk]
    · have hk : (k == pk) = false := by
        simp only [beq_eq_false_iff_ne, ne_eq]
        intro he
        exact absurd (by simp [beq_iff_eq, he.symm]) hp
      rw [if_neg hp]
      simp only [List.lookup, hk]
      exact ih

theorem lookup_append_or [BEq κ] (l1 l2 : List (κ × α)) (k : κ) :
    ((l1 ++ l2).lookup k) = ((l1.lookup k).or (l2.lookup k)) := by
  induction l1 with
  | nil => simp [List.lookup]
  | cons p rest ih =>
    obtain ⟨pk, pv⟩ := p
    by_cases hk : k == pk
    · simp [List.lookup, hk]
    · simp only [List.cons_append, List.lookup, hk]
      exact ih

/-- C1 counterexample: in the two-contract run `traceTwo`, the sum of all
contracts' `totalGasCost` is 35 (the callee's popped span is added on top
of the entry total, which already covers the whole trace), while
`firstLog.gas - lastLog.gas + gasCost(lastLog)` is 30: the claimed
conservation identity fails as soon as a second contract is entered. -/
theorem c1_counterexample :
    traceTwo[0]? = some (⟨0, "CALL", 100, 10, 1, ["1", "0"]⟩ : StructLog) ∧
    traceTwo.getLast? = some (⟨1, "STOP", 70, 0, 1, []⟩ : StructLog) ∧
    (100 : Int) - 70 + getGasCost (⟨1, "STOP", 70, 0, 1, []⟩ : StructLog) = 30 ∧
    sumTotalsOfResult (mainCore envTwo "0x00" false traceTwo) = some 35 ∧
    sumTotalsOfResult (mainCore envTwo "0x00" false traceTwo) ≠ some 30 := by
  decide

theorem getContractWithAddr_key (env : Env) (addr : String) (st : ReplayState) :
    (getContractWithAddr env addr st).1 = normalizeAddressStr addr := by
  simp only [getContractWithAddr]
  split
  · rfl
  · split
    · rfl
    · split
      · rfl
      · rfl

theorem isSome_or_left (a b : Option α) (h : a.isSome = true) :
    (a.or b).isSome = true := by
  cases a with
  | none => simp at h
  | some v => simp [Option.or]

theorem getContractWithAddr_hasKey (env : Env) (addr : String)
    (st : ReplayState) :
    ((getContractWithAddr env addr st).2.contracts.lookup
      (getContractWithAddr env addr st).1).isSome = true := by
  simp only [getContractWithAddr]
  split
  · next c heq => simp [heq]
  · next heq =>
    split
    · simp [lookup_append_or, heq, List.lookup]
    · split
      · simp [lookup_append_or, heq, List.lookup]
      · simp [lookup_append_or, heq, List.lookup]

theorem getContractWithAddr_preserves (env : Env) (addr : String)
    (st : ReplayState) (k2 : String)
    (h : (st.contracts.lookup k2).isSome = true) :
    ((getContractWithAddr env addr st).2.contracts.lookup k2).isSome = true := by
  simp only [getContractWithAddr]
  split
  · exact h
  · split
    · simp only [lookup_append_or]
      exact isSome_or_left _ _ h
    · split
      · simp only [lookup_append_or]
        exact isSome_or_left _ _ h
      · simp only [lookup_append_or]
        exact isSome_or_left _ _ h

theorem getSourceForFilename_pres (env : Env) (fn : String) (st : ReplayState) :
    (getSourceForFilename env fn st).2.contracts = st.contracts ∧
    (getSourceForFilename env fn st).2.callStack = st.callStack := by
  simp only [getSourceForFilename]
  split
  · exact ⟨rfl, rfl⟩
  · split
    · exact ⟨rfl, rfl⟩
    · exact ⟨rfl, rfl⟩

theorem getSourceWithId_pres (env : Env) (sid : Option Int) (st : ReplayState) :
    (getSourceWithId env sid st).2.contracts = st.contracts ∧
    (getSourceWithId env sid st).2.callStack = st.callStack := by
  simp only [getSourceWithId]
  split
  · exact ⟨rfl, rfl⟩
  · split
    · exact ⟨rfl, rfl⟩
    · exact getSourceForFilename_pres env _ st

theorem getSourcePosition_pres (env : Env) (call : Frame) (log : StructLog)
    (st : ReplayState) (pos : SourcePos) (st2 : ReplayState)
    (h : getSourcePosition env call log st = .ok (pos, st2)) :
    st2.callStack = st.callStack ∧
    ∀ k2, (st.contracts.lookup k2).isSome = true →
      (st2.contracts.lookup k2).isSome = true := by
  unfold getSourcePosition at h
  split at h
  · simp at h
  · split at h
    · cases h
      exact ⟨rfl, fun k2 hk => hk⟩
    · split at h
      · cases h
        exact ⟨rfl, fun k2 hk => hk⟩
      · split at h
        · simp at h
        · split at h
          · simp at h
          · split at h
            · cases h
              exact ⟨rfl, fun k2 hk => hk⟩
            · cases h
              constructor
              · split
                · exact (getSourceWithId_pres env _ st).2
                · exact (getSourceWithId_pres env _ st).2
              · intro k2 hk
                split
                · rw [lookup_assocUpd_isSome, (getSourceWithId_pres env _ st).1]
                  exact hk
                · rw [(getSourceWithId_pres env _ st).1]
                  exact hk

theorem unwind_contracts_isSome (logs : List StructLog) (log : StructLog)
    (bd : Int) (i : Nat) :
    ∀ (stack : List Frame) (contracts : List (String × Contract))
      (arena : List Source)
      (out : List Frame × List (String × Contract) × List Source),
      unwindLoop logs log bd i stack contracts arena = .ok out →
      ∀ k2, (contracts.lookup k2).isSome = true →
        (out.2.1.lookup k2).isSome = true := by
  intro stack
  induction stack with
  | nil =>
    intro contracts arena out h k2 hk
    simp only [unwindLoop] at h
    split at h
    · simp at h
    · cases h
      exact hk
  | cons prevTop rest ih =>
    intro contracts arena out h k2 hk
    simp only [unwindLoop] at h
    split at h
    · split at h
      · simp at h
      · split at h
        · simp at h
        · split at h
          · simp at h
          · refine ih _ _ _ h k2 ?_
            rw [lookup_assocUpd_isSome]
            exact hk
    · cases h
      exact hk


theorem attrGas_pres (gasCost : Int) (call : Frame) (pos : SourcePos)
    (st2 : ReplayState) (k2 : String)
    (hk : (st2.contracts.lookup k2).isSome = true) :
    (((attrGas gasCost call pos st2).contracts).lookup k2).isSome = true := by
  unfold attrGas
  split
  · rw [lookup_assocUpd_isSome]
    exact hk
  · exact hk

theorem pushOutgoing_pres (env : Env) (logs : List StructLog) (i : Nat)
    (log nextLog : StructLog) (pos : SourcePos) (idx : Nat)
    (st2 : ReplayState) (k2 : String)
    (hk : (st2.contracts.lookup k2).isSome = true) :
    (((pushOutgoing env logs i log nextLog pos idx st2).contracts).lookup
      k2).isSome = true := by
  unfold pushOutgoing
  exact getContractWithAddr_preserves env _ _ k2 hk

theorem stepAfterSource_pres (env : Env) (logs : List StructLog) (i : Nat)
    (log : StructLog) (call : Frame) (pos : SourcePos) (idx : Nat)
    (st2 st3 : ReplayState)
    (h : stepAfterSource env logs i log call pos idx st2 = .ok st3)
    (k2 : String) (hk : (st2.contracts.lookup k2).isSome = true) :
    (st3.contracts.lookup k2).isSome = true := by
  unfold stepAfterSource at h
  split at h
  · split at h
    · split at h
      · simp at h
      · cases h
        exact pushOutgoing_pres env logs i log _ pos idx st2 k2 hk
    · cases h
      exact attrGas_pres _ call pos st2 k2 hk
  · cases h
    exact attrGas_pres _ call pos st2 k2 hk

theorem replayStep_pres (env : Env) (logs : List StructLog) (bd : Int)
    (i : Nat) (st st2 : ReplayState)
    (h : replayStep env logs bd i st = .ok st2) (k2 : String)
    (hk : (st.contracts.lookup k2).isSome = true) :
    (st2.contracts.lookup k2).isSome = true := by
  unfold replayStep at h
  split at h
  · cases h
    exact hk
  · split at h
    · simp at h
    · rename_i hunwind
      split at h
      · simp at h
      · split at h
        · simp at h
        · split at h
          · simp at h
          · rename_i pos stmid hpos
            refine stepAfterSource_pres env logs i _ _ pos _ stmid st2 h k2 ?_
            refine (getSourcePosition_pres env _ _ _ _ _ hpos).2 k2 ?_
            exact unwind_contracts_isSome logs _ bd i st.callStack st.contracts
              st.arena _ hunwind k2 hk

theorem replaySteps_pres (env : Env) (logs : List StructLog) (bd : Int) :
    ∀ (fuel i : Nat) (st st2 : ReplayState),
      replaySteps env logs bd fuel i st = .ok st2 →
      ∀ k2, (st.contracts.lookup k2).isSome = true →
        (st2.contracts.lookup k2).isSome = true := by
  intro fuel
  induction fuel with
  | zero =>
    intro i st st2 h k2 hk
    cases h
    exact hk
  | succ f ih =>
    intro i st st2 h k2 hk
    rw [replaySteps] at h
    split at h
    · split at h
      · simp at h
      · rename_i stmid hstep
        exact ih _ _ _ h k2 (replayStep_pres env logs bd i st stmid hstep k2 hk)
    · cases h
      exact hk

/-- C1 amended: at termination the engine assigns the ENTRY contract's
`totalGasCost` to exactly `firstLog.gas - lastLog.gas + gasCost(lastLog)`;
the sum over all contracts additionally contains every popped frame's span
(already included in the entry total), so the claimed conservation identity
holds for the entry contract's counter, not for the sum. -/
theorem c1_entry_total (env : Env) (a : String) (c : Bool)
    (logs : List StructLog) (fl ll : StructLog)
    (hfin : (mainCore env a c logs).isFinished = true)
    (hfl : logs[0]? = some fl) (hll : logs.getLast? = some ll) :
    entryTotalOfResult (mainCore env a c logs) (normalizeAddressStr a) =
      some (fl.gas - ll.gas + getGasCost ll) := by
  unfold mainCore at hfin ⊢
  by_cases ha : a = ""
  · rw [if_pos ha] at hfin
    simp [RunResult.isFinished] at hfin
  · rw [if_neg ha] at hfin ⊢
    rw [if_neg (by simp [jsObjFalsy])] at hfin ⊢
    cases hrs : replaySteps env logs fl.depth logs.length 0
        (initialState env a c) with
    | error e =>
      simp [hfl, hrs, RunResult.isFinished] at hfin
    | ok st3 =>
      clear hfin
      simp only [hfl, hrs, hll]
      have hkey : ((initialState env a c).contracts.lookup
          (getContractWithAddr env a ⟨[], [], [], [], []⟩).1).isSome = true := by
        unfold initialState
        exact getContractWithAddr_hasKey env a ⟨[], [], [], [], []⟩
      have hst3 : (st3.contracts.lookup
          (getContractWithAddr env a ⟨[], [], [], [], []⟩).1).isSome = true :=
        replaySteps_pres env logs fl.depth logs.length 0 _ st3 hrs _ hkey
      unfold entryTotalOfResult
      rw [← getContractWithAddr_key env a ⟨[], [], [], [], []⟩]
      simp only []
      rw [lookup_assocUpd_self]
      obtain ⟨c0, hc0⟩ := Option.isSome_iff_exists.mp hst3
      rw [hc0]
      rfl

theorem c1_entry_total_witness :
    (mainCore envTwo "0x00" false traceTwo).isFinished = true ∧
    traceTwo[0]? = some (⟨0, "CALL", 100, 10, 1, ["1", "0"]⟩ : StructLog) ∧
    traceTwo.getLast? = some (⟨1, "STOP", 70, 0, 1, []⟩ : StructLog) ∧
    entryTotalOfResult (mainCore envTwo "0x00" false traceTwo)
        (normalizeAddressStr "0x00") =
      some (100 - 70 +
        getGasCost (⟨1, "STOP", 70, 0, 1, []⟩ : StructLog)) :=
  ⟨by decide, by decide, by decide,
   c1_entry_total envTwo "0x00" false traceTwo
     ⟨0, "CALL", 100, 10, 1, ["1", "0"]⟩ ⟨1, "STOP", 70, 0, 1, []⟩
     (by decide) (by decide) (by decide)⟩

theorem toInt32_eq_self (x : Int) (h0 : 0 ≤ x) (h1 : x ≤ 2 ^ 31 - 1) :
    toInt32 x = x := by
  unfold toInt32
  omega

theorem ABnd_mono (arena : List Source) (b1 b2 : Int) (h : ABnd arena b1)
    (hb : b1 ≤ b2) : ABnd arena b2 :=
  fun src hs e he => ⟨(h src hs e he).1, le_trans (h src hs e he).2 hb⟩

theorem listSetAt_mem (l : List α) (i : Nat) (f : α → α) (x : α)
    (hx : x ∈ listSetAt l i f) :
    x ∈ l ∨ ∃ y, l[i]? = some y ∧ x = f y := by
  induction l generalizing i with
  | nil => simp [listSetAt] at hx
  | cons a as ih =>
    cases i with
    | zero =>
      rcases List.mem_cons.mp hx with h | h
      · exact Or.inr ⟨a, by simp, h⟩
      · exact Or.inl (List.mem_cons_of_mem a h)
    | succ n =>
      rcases List.mem_cons.mp hx with h | h
      · exact Or.inl (h ▸ List.mem_cons_self a as)
      · rcases ih n h with h2 | ⟨y, hy, he⟩
        · exact Or.inl (List.mem_cons_of_mem a h2)
        · exact Or.inr ⟨y, by simpa using hy, he⟩

theorem assocSet_mem [BEq κ] (l : List (κ × α)) (k : κ) (v : α) (e : κ × α)
    (he : e ∈ assocSet l k v) : e = (k, v) ∨ e ∈ l := by
  induction l with
  | nil => simpa [assocSet] using he
  | cons p rest ih =>
    unfold assocSet at he
    split at he
    · rcases List.mem_cons.mp he with h | h
      · exact Or.inl h
      · exact Or.inr (List.mem_cons_of_mem p h)
    · rcases List.mem_cons.mp he with h | h
      · exact Or.inr (h ▸ List.mem_cons_self p rest)
      · rcases ih h with h2 | h2
        · exact Or.inl h2
        · exact Or.inr (List.mem_cons_of_mem p h2)

theorem lookup_mem [BEq κ] [LawfulBEq κ] (l : List (κ × α)) (k : κ) (v : α)
    (h : l.lookup k = some v) : (k, v) ∈ l := by
  induction l with
  | nil => simp [List.lookup] at h
  | cons p rest ih =>
    rw [List.lookup] at h
    split at h
    · rename_i hk
      cases h
      have : k = p.1 := by simpa using hk
      subst this
      exact List.mem_cons_self _ _
    · exact List.mem_cons_of_mem p (ih h)

theorem partialGc_nonneg (logs : List StructLog)
    (h : ∀ l ∈ logs, 0 ≤ getGasCost l) (i : Nat) : 0 ≤ partialGc logs i := by
  refine List.sum_nonneg ?_
  intro x hx
  rcases List.mem_map.mp hx with ⟨lg, hl, rfl⟩
  exact h lg (List.mem_of_mem_take hl)

theorem partialGc_le_total (logs : List StructLog)
    (h : ∀ l ∈ logs, 0 ≤ getGasCost l) (i : Nat) :
    partialGc logs i ≤ totalGc logs := by
  unfold partialGc totalGc
  conv_rhs => rw [← List.take_append_drop i logs]
  rw [List.map_append, List.sum_append]
  have h2 : 0 ≤ ((logs.drop i).map getGasCost).sum := by
    refine List.sum_nonneg ?_
    intro x hx
    rcases List.mem_map.mp hx with ⟨lg, hl, rfl⟩
    exact h lg (List.mem_of_mem_drop hl)
  linarith

theorem partialGc_succ (logs : List StructLog) (i : Nat) (log : StructLog)
    (h : logs[i]? = some log) :
    partialGc logs (i + 1) = partialGc logs i + getGasCost log := by
  unfold partialGc
  rw [List.take_succ, h]
  simp

theorem chain_gas_succ (logs : List StructLog)
    (hch : logs.Chain' (fun a b => b.gas ≤ a.gas)) (k : Nat) (a b : StructLog)
    (ha : logs[k]? = some a) (hb : logs[k + 1]? = some b) : b.gas ≤ a.gas := by
  rw [List.chain'_iff_get] at hch
  obtain ⟨h1, e1⟩ := List.getElem?_eq_some_iff.mp ha
  obtain ⟨h2, e2⟩ := List.getElem?_eq_some_iff.mp hb
  have := hch k (by omega)
  simp only [List.get_eq_getElem] at this
  rw [e1, e2] at this
  exact this

theorem chain_gas_le (logs : List StructLog)
    (hch : logs.Chain' (fun a b => b.gas ≤ a.gas)) :
    ∀ (d k : Nat) (a b : StructLog), logs[k]? = some a →
      logs[k + d]? = some b → b.gas ≤ a.gas := by
  intro d
  induction d with
  | zero =>
    intro k a b ha hb
    rw [Nat.add_zero, ha] at hb
    cases hb
    exact le_refl _
  | succ d ih =>
    intro k a b ha hb
    rw [← Nat.add_assoc] at hb
    obtain ⟨h2, _⟩ := List.getElem?_eq_some_iff.mp hb
    have hkd : k + d < logs.length := by omega
    have hcc : logs[k + d]? = some logs[k + d] :=
      List.getElem?_eq_some_iff.mpr ⟨hkd, rfl⟩
    exact le_trans (chain_gas_succ logs hch (k + d) _ b hcc hb) (ih k a _ ha hcc)

theorem chain_gas_mono (logs : List StructLog)
    (hch : logs.Chain' (fun a b => b.gas ≤ a.gas)) (k1 k2 : Nat)
    (a b : StructLog) (hk : k1 ≤ k2) (ha : logs[k1]? = some a)
    (hb : logs[k2]? = some b) : b.gas ≤ a.gas := by
  refine chain_gas_le logs hch (k2 - k1) k1 a b ha ?_
  rwa [Nat.add_sub_cancel' hk]

theorem FramesFromLogs_mono (logs : List StructLog) (i j : Nat)
    (stack : List Frame) (hij : i ≤ j) (h : FramesFromLogs logs i stack) :
    FramesFromLogs logs j stack := by
  intro j' f hjf h1
  obtain ⟨k, lg, hk, hlg, he⟩ := h j' f hjf h1
  exact ⟨k, lg, lt_of_lt_of_le hk hij, hlg, he⟩

theorem listSetAt_getElem_ne (l : List α) (i j : Nat) (f : α → α)
    (hne : i ≠ j) : (listSetAt l i f)[j]? = l[j]? := by
  induction l generalizing i j with
  | nil => simp [listSetAt]
  | cons a as ih =>
    cases i with
    | zero =>
      cases j with
      | zero => exact absurd rfl hne
      | succ m => simp [listSetAt]
    | succ n =>
      cases j with
      | zero => simp [listSetAt]
      | succ m =>
        simp only [listSetAt, List.getElem?_cons_succ]
        exact ih n m (by omega)

theorem incLineGas_bound (arena : List Source) (src : Option Nat)
    (line : Option Nat) (d : Int) (isCall : Bool) (bnd : Int)
    (hA : ABnd arena bnd) (h0 : 0 ≤ bnd) (hd : 0 ≤ d)
    (hmax : bnd ≤ 2 ^ 31 - 1) :
    ABnd (incLineGas arena src line d isCall) (bnd + d) := by
  have hmono : ABnd arena (bnd + d) := ABnd_mono _ _ _ hA (by linarith)
  rcases src with _ | si
  · exact hmono
  rcases line with _ | ln
  · exact hmono
  unfold incLineGas
  simp only []
  cases harena : arena[si]? with
  | none => exact hmono
  | some s =>
    simp only []
    by_cases hskip : s.skip
    · rw [if_pos hskip]
      exact hmono
    · rw [if_neg hskip]
      intro src' hsrc' e he
      rcases listSetAt_mem _ _ _ _ hsrc' with hin | ⟨y, hy, rfl⟩
      · exact hmono src' hin e he
      · rw [harena] at hy
        injection hy with hy
        subst hy
        simp only [] at he
        rcases assocSet_mem _ _ _ _ he with rfl | hin
      
        · cases hlk : s.lineGas.lookup ln with
          | none =>
            simp only [hlk, jsOrInt32Zero]
            constructor
            · simpa using hd
            · simp
              linarith
          | some old =>
            have hmem : (ln, old) ∈ s.lineGas := lookup_mem _ _ _ hlk
            have hs_in : s ∈ arena := List.getElem?_mem harena
            obtain ⟨ho1, ho2⟩ := hA s hs_in (ln, old) hmem
            simp only [hlk, jsOrInt32Zero]
            rw [toInt32_eq_self old ho1 (le_trans ho2 hmax)]
            exact ⟨by linarith, by linarith⟩
        · exact hmono s (List.getElem?_mem harena) e hin
  

theorem getContractWithAddr_arena (env : Env) (addr : String)
    (st : ReplayState) :
    (getContractWithAddr env addr st).2.arena = st.arena := by
  simp only [getContractWithAddr]
  split
  · rfl
  · split
    · rfl
    · split
      · rfl
      · rfl

theorem getSourceForFilename_abnd (env : Env) (fn : String) (st : ReplayState)
    (bnd : Int) (h : ABnd st.arena bnd) :
    ABnd (getSourceForFilename env fn st).2.arena bnd := by
  simp only [getSourceForFilename]
  split
  · exact h
  · split
    · intro src hs e he
      rcases List.mem_append.mp hs with h1 | h1
      · exact h src h1 e he
      · simp only [List.mem_singleton] at h1
        subst h1
        simp [makeSource] at he
    · intro src hs e he
      rcases List.mem_append.mp hs with h1 | h1
      · exact h src h1 e he
      · simp only [List.mem_singleton] at h1
        subst h1
        simp at he

theorem getSourceWithId_abnd (env : Env) (sid : Option Int) (st : ReplayState)
    (bnd : Int) (h : ABnd st.arena bnd) :
    ABnd (getSourceWithId env sid st).2.arena bnd := by
  simp only [getSourceWithId]
  split
  · exact h
  · split
    · intro src hs e he
      rcases List.mem_append.mp hs with h1 | h1
      · exact h src h1 e he
      · simp only [List.mem_singleton] at h1
        subst h1
        simp [makeSource] at he
    · exact getSourceForFilename_abnd env _ st bnd h

theorem getSourcePosition_abnd (env : Env) (call : Frame) (log : StructLog)
    (st : ReplayState) (pos : SourcePos) (st2 : ReplayState)
    (h : getSourcePosition env call log st = .ok (pos, st2)) (bnd : Int)
    (hA : ABnd st.arena bnd) : ABnd st2.arena bnd := by
  unfold getSourcePosition at h
  split at h
  · simp at h
  · split at h
    · cases h
      exact hA
    · split at h
      · cases h
        exact hA
      · split at h
        · simp at h
        · split at h
          · simp at h
          · split at h
            · cases h
              exact hA
            · cases h
              split
              · exact getSourceWithId_abnd env _ st bnd hA
              · exact getSourceWithId_abnd env _ st bnd hA

theorem unwind_exit_cond (logs : List StructLog) (log : StructLog) (bd : Int)
    (i : Nat) :
    ∀ (stack : List Frame) (contracts : List (String × Contract))
      (arena : List Source)
      (out : List Frame × List (String × Contract) × List Source),
      unwindLoop logs log bd i stack contracts arena = .ok out →
      ¬ (log.depth - bd < (out.1.length : Int) - 1) := by
  intro stack
  induction stack with
  | nil =>
    intro contracts arena out h
    simp only [unwindLoop] at h
    split at h
    · simp at h
    · cases h
      rename_i hcond
      simpa using hcond
  | cons prevTop rest ih =>
    intro contracts arena out h
    simp only [unwindLoop] at h
    split at h
    · split at h
      · simp at h
      · split at h
        · simp at h
        · split at h
          · simp at h
          · exact ih _ _ _ h
    · cases h
      rename_i hcond
      simp only [List.length_cons]
      intro hlt
      apply hcond
      push_cast at hlt ⊢
      omega


theorem unwind_c8 (logs : List StructLog) (log : StructLog) (bd : Int)
    (i : Nat) (G : Int) (good : GoodTrace logs G)
    (hlog : logs[i]? = some log) :
    ∀ (stack : List Frame) (contracts : List (String × Contract))
      (arena : List Source)
      (out : List Frame × List (String × Contract) × List Source),
      unwindLoop logs log bd i stack contracts arena = .ok out →
      FramesFromLogs logs i stack →
      ABnd arena (partialGc logs i + ((i : Int) + 1 - stack.length) * G) →
      stack.length ≤ i + 1 →
      ABnd out.2.2 (partialGc logs i + ((i : Int) + 1 - out.1.length) * G) ∧
      FramesFromLogs logs i out.1 ∧ out.1.length ≤ stack.length := by
  obtain ⟨hgc, hgas, hG0, hch, hbudget⟩ := good
  have hiN : i < logs.length := (List.getElem?_eq_some_iff.mp hlog).1
  intro stack
  induction stack with
  | nil =>
    intro contracts arena out h hB hA hlen
    simp only [unwindLoop] at h
    split at h
    · simp at h
    · cases h
      exact ⟨hA, hB, le_refl _⟩
  | cons prevTop rest ih =>
    intro contracts arena out h hB hA hlen
    simp only [unwindLoop] at h
    by_cases hguard : log.depth - bd < (rest.length : Int)
    case neg =>
      rw [if_neg hguard] at h
      cases h
      exact ⟨hA, hB, le_refl _⟩
    case pos =>
      rw [if_pos hguard] at h
      cases i with
      | zero => simp at h
      | succ i0 =>
        simp only [] at h
        cases hpl : logs[i0]? with
        | none =>
          rw [hpl] at h
          simp at h
        | some prevLog =>
          rw [hpl] at h
          simp only [] at h
          cases rest with
          | nil => simp at h
          | cons topCall tail =>
            simp only [] at h
            have hB1 : FramesFromLogs logs (i0 + 1) (topCall :: tail) := by
              intro j f hjf h1
              exact hB (j + 1) f (by rw [List.getElem?_cons_succ]; exact hjf)
                (by omega)
            have htop : (prevTop :: topCall :: tail)[1]? = some topCall := by
              simp
            obtain ⟨k, lg, hk, hlg, hgb⟩ := hB 1 topCall htop (by omega)
            have hlog_mem : log ∈ logs := List.getElem?_mem hlog
            have hlg_mem : lg ∈ logs := List.getElem?_mem hlg
            have hdelta0 : 0 ≤ topCall.gasBeforeOutgoingCall - log.gas := by
              have := chain_gas_mono logs hch k (i0 + 1) lg log (by omega)
                hlg hlog
              rw [hgb]
              linarith
            have hdeltaG : topCall.gasBeforeOutgoingCall - log.gas ≤ G := by
              have h1 := (hgas lg hlg_mem).2
              have h2 := (hgas log hlog_mem).1
              rw [hgb]
              linarith
            have hlenI : ((prevTop :: topCall :: tail).length : Int) ≤
                ((i0 : Int) + 1) + 1 := by
              exact_mod_cast hlen
            have hlen1 : (0 : Int) ≤ ((i0 : Int) + 1) + 1 -
                (prevTop :: topCall :: tail).length := by
              linarith
            have hbnd0 : 0 ≤ partialGc logs (i0 + 1) +
                (((i0 : Int) + 1) + 1 -
                  (prevTop :: topCall :: tail).length) * G := by
              have hp := partialGc_nonneg logs hgc (i0 + 1)
              have hm := mul_nonneg hlen1 hG0
              linarith
            have hbndmax : partialGc logs (i0 + 1) +
                (((i0 : Int) + 1) + 1 -
                  (prevTop :: topCall :: tail).length) * G ≤ 2 ^ 31 - 1 := by
              have hpt := partialGc_le_total logs hgc (i0 + 1)
              have hfac : ((i0 : Int) + 1) + 1 -
                  (prevTop :: topCall :: tail).length ≤ (logs.length : Int) := by
                simp only [List.length_cons]
                push_cast
                omega
              have hm := mul_le_mul_of_nonneg_right hfac hG0
              linarith
            have hcast : ((i0 + 1 : Nat) : Int) = (i0 : Int) + 1 := by
              push_cast
              ring
            rw [hcast] at hA ⊢
            have hA2 := incLineGas_bound arena topCall.outgoingCallSource
              topCall.outgoingCallLine
              (topCall.gasBeforeOutgoingCall - log.gas) true _ hA hbnd0
              hdelta0 hbndmax
            have hA3 : ABnd (incLineGas arena topCall.outgoingCallSource
                topCall.outgoingCallLine
                (topCall.gasBeforeOutgoingCall - log.gas) true)
                (partialGc logs (i0 + 1) +
                  (((i0 : Int) + 1) + 1 - ((topCall :: tail).length : Int)) *
                    G) := by
              refine ABnd_mono _ _ _ hA2 ?_
              have hlc : ((prevTop :: topCall :: tail).length : Int) =
                  ((topCall :: tail).length : Int) + 1 := by
                simp only [List.length_cons]
                push_cast
                ring
              rw [hlc]
              nlinarith [hdeltaG]
            have hres := ih _ _ _ h hB1 ?hA4 ?hlen4
            case hA4 =>
              rw [hcast]
              exact hA3
            case hlen4 =>
              have : (topCall :: tail).length + 1 =
                  (prevTop :: topCall :: tail).length := by simp
              omega
            obtain ⟨hc1, hc2, hc3⟩ := hres
            rw [hcast] at hc1
            refine ⟨hc1, hc2, ?_⟩
            simp only [List.length_cons] at hc3 ⊢
            omega

theorem listSetAt_length (l : List α) (f : α → α) :
    ∀ i : Nat, (listSetAt l i f).length = l.length := by
  induction l with
  | nil => intro i; simp [listSetAt]
  | cons x xs ih =>
    intro i
    cases i with
    | zero => simp [listSetAt]
    | succ j => simpa [listSetAt] using ih j

theorem getContractWithAddr_stack (env : Env) (addr : String)
    (st : ReplayState) :
    (getContractWithAddr env addr st).2.callStack = st.callStack := by
  simp only [getContractWithAddr]
  split
  · rfl
  · split
    · rfl
    · split
      · rfl
      · rfl

theorem attrGas_c8 (gasCost : Int) (call : Frame) (pos : SourcePos)
    (st2 : ReplayState) (bnd : Int) (hA : ABnd st2.arena bnd) (h0 : 0 ≤ bnd)
    (hd : 0 ≤ gasCost) (hmax : bnd ≤ 2 ^ 31 - 1) :
    ABnd (attrGas gasCost call pos st2).arena (bnd + gasCost) ∧
    (attrGas gasCost call pos st2).callStack = st2.callStack := by
  unfold attrGas
  split
  · exact ⟨ABnd_mono _ _ _ hA (by linarith), rfl⟩
  · exact ⟨incLineGas_bound _ _ _ _ _ _ hA h0 hd hmax, rfl⟩

theorem pushOutgoing_arena (env : Env) (logs : List StructLog) (i : Nat)
    (log nextLog : StructLog) (pos : SourcePos) (idx : Nat)
    (st2 : ReplayState) :
    (pushOutgoing env logs i log nextLog pos idx st2).arena = st2.arena := by
  unfold pushOutgoing
  rw [getContractWithAddr_arena]

theorem pushOutgoing_stack (env : Env) (logs : List StructLog) (i : Nat)
    (log nextLog : StructLog) (pos : SourcePos) (idx : Nat)
    (st2 : ReplayState) :
    ∃ nf : Frame,
      (pushOutgoing env logs i log nextLog pos idx st2).callStack =
        nf :: listSetAt st2.callStack idx (markOutgoing pos log.gas) := by
  unfold pushOutgoing
  simp only []
  apply Exists.intro
  rw [getContractWithAddr_stack]

theorem pushOutgoing_frames (env : Env) (logs : List StructLog) (i : Nat)
    (log nextLog : StructLog) (pos : SourcePos) (st2 : ReplayState)
    (hB : FramesFromLogs logs i st2.callStack)
    (hlog : logs[i]? = some log) :
    FramesFromLogs logs (i + 1)
      (pushOutgoing env logs i log nextLog pos 0 st2).callStack := by
  obtain ⟨nf, hcs⟩ := pushOutgoing_stack env logs i log nextLog pos 0 st2
  rw [hcs]
  intro j f hjf h1
  cases j with
  | zero => omega
  | succ j2 =>
    rw [List.getElem?_cons_succ] at hjf
    cases j2 with
    | zero =>
      rw [listSetAt_getElem_self] at hjf
      cases hcs0 : st2.callStack[0]? with
      | none => rw [hcs0] at hjf; simp at hjf
      | some f0 =>
        rw [hcs0] at hjf
        simp at hjf
        subst hjf
        exact ⟨i, log, by omega, hlog, rfl⟩
    | succ j3 =>
      rw [listSetAt_getElem_ne _ _ _ _ (by omega)] at hjf
      obtain ⟨k, lg, hk, hlg, he⟩ := hB (j3 + 1) f hjf (by omega)
      exact ⟨k, lg, by omega, hlg, he⟩

theorem stepAfterSource_c8 (env : Env) (logs : List StructLog) (i : Nat)
    (log : StructLog) (call : Frame) (pos : SourcePos) (st2 st3 : ReplayState)
    (bnd : Int)
    (h : stepAfterSource env logs i log call pos 0 st2 = .ok st3)
    (hlog : logs[i]? = some log) (hd : 0 ≤ getGasCost log)
    (hA : ABnd st2.arena bnd) (h0 : 0 ≤ bnd) (hmax : bnd ≤ 2 ^ 31 - 1)
    (hB : FramesFromLogs logs i st2.callStack)
    (hstack1 : 1 ≤ st2.callStack.length) :
    ABnd st3.arena (bnd + getGasCost log) ∧
    FramesFromLogs logs (i + 1) st3.callStack ∧
    1 ≤ st3.callStack.length ∧
    st3.callStack.length ≤ st2.callStack.length + 1 := by
  unfold stepAfterSource at h
  split at h
  · split at h
    · split at h
      · simp at h
      · cases h
        obtain ⟨nf, hcs⟩ := pushOutgoing_stack env logs i log _ pos 0 st2
        refine ⟨?_, pushOutgoing_frames env logs i log _ pos st2 hB hlog,
          ?_, ?_⟩
        · rw [pushOutgoing_arena]
          exact ABnd_mono _ _ _ hA (by linarith)
        · rw [hcs]
          simp
        · rw [hcs]
          simp only [List.length_cons, listSetAt_length]
          omega
    · cases h
      obtain ⟨ha, hs⟩ := attrGas_c8 (getGasCost log) call pos st2 bnd hA h0
        hd hmax
      rw [hs]
      exact ⟨ha, FramesFromLogs_mono logs i (i + 1) _ (by omega) hB,
        hstack1, by omega⟩
  · cases h
    obtain ⟨ha, hs⟩ := attrGas_c8 (getGasCost log) call pos st2 bnd hA h0
      hd hmax
    rw [hs]
    exact ⟨ha, FramesFromLogs_mono logs i (i + 1) _ (by omega) hB,
      hstack1, by omega⟩

theorem step_c8 (env : Env) (logs : List StructLog) (bd : Int) (i : Nat)
    (st st2 : ReplayState) (G : Int) (good : GoodTrace logs G)
    (hiN : i < logs.length)
    (h : replayStep env logs bd i st = .ok st2)
    (inv : C8Inv logs G i st) : C8Inv logs G (i + 1) st2 := by
  obtain ⟨hA, hB, hlen1, hlen2⟩ := inv
  unfold replayStep at h
  cases hlog : logs[i]? with
  | none =>
    exfalso
    rw [List.getElem?_eq_none_iff] at hlog
    omega
  | some log =>
    rw [hlog] at h
    simp only [] at h
    cases hunw : unwindLoop logs log bd i st.callStack st.contracts
        st.arena with
    | error e => rw [hunw] at h; simp at h
    | ok out =>
      obtain ⟨stack1, contracts1, arena1⟩ := out
      rw [hunw] at h
      simp only [] at h
      obtain ⟨hA1r, hB1r, hlen3r⟩ := unwind_c8 logs log bd i G good hlog
        st.callStack st.contracts st.arena _ hunw hB hA hlen2
      have hA1 : ABnd arena1
          (partialGc logs i + ((i : Int) + 1 - stack1.length) * G) := hA1r
      have hB1 : FramesFromLogs logs i stack1 := hB1r
      have hlen3 : stack1.length ≤ st.callStack.length := hlen3r
      have hexit : ¬ (log.depth - bd < (stack1.length : Int) - 1) :=
        unwind_exit_cond logs log bd i st.callStack st.contracts st.arena
          _ hunw
      by_cases hz : stack1.length = 0
      · rw [if_pos hz] at h
        simp at h
      · rw [if_neg hz] at h
        cases hjs : jsStackIdx stack1 (log.depth - bd) with
        | none => rw [hjs] at h; simp at h
        | some call =>
          rw [hjs] at h
          simp only [] at h
          have hcond : 0 ≤ log.depth - bd ∧
              log.depth - bd < (stack1.length : Int) := by
            unfold jsStackIdx at hjs
            split at hjs
            · rename_i hc; exact hc
            · simp at hjs
          cases hpos : getSourcePosition env call log
              { st with callStack := stack1, contracts := contracts1,
                        arena := arena1 } with
          | error e => rw [hpos] at h; simp at h
          | ok pr =>
            obtain ⟨pos, stmid⟩ := pr
            rw [hpos] at h
            simp only [] at h
            have hcs : stmid.callStack = stack1 :=
              (getSourcePosition_pres env call log _ pos stmid hpos).1
            have hAmid : ABnd stmid.arena
                (partialGc logs i + ((i : Int) + 1 - stack1.length) * G) :=
              getSourcePosition_abnd env call log _ pos stmid hpos _ hA1
            have hidx : stmid.callStack.length - 1 -
                (log.depth - bd).toNat = 0 := by
              rw [hcs]
              omega
            rw [hidx] at h
            obtain ⟨hgc, hgas, hG0, hch, hbudget⟩ := good
            have hmemlog : log ∈ logs := List.getElem?_mem hlog
            have hd : 0 ≤ getGasCost log := hgc log hmemlog
            have hlenst1 : stack1.length ≤ i + 1 := le_trans hlen3 hlen2
            have hlenI : ((stack1.length : Int)) ≤ (i : Int) + 1 := by
              exact_mod_cast hlenst1
            have h0 : 0 ≤ partialGc logs i +
                ((i : Int) + 1 - stack1.length) * G := by
              have hp := partialGc_nonneg logs hgc i
              have hm := mul_nonneg (by linarith :
                (0 : Int) ≤ (i : Int) + 1 - stack1.length) hG0
              linarith
            have hmax : partialGc logs i +
                ((i : Int) + 1 - stack1.length) * G ≤ 2 ^ 31 - 1 := by
              have hpt := partialGc_le_total logs hgc i
              have hfac : (i : Int) + 1 - stack1.length ≤
                  (logs.length : Int) := by
                have : (i : Int) < (logs.length : Int) := by
                  exact_mod_cast hiN
                linarith [hcond.1]
              have hm := mul_le_mul_of_nonneg_right hfac hG0
              linarith
            have hBmid : FramesFromLogs logs i stmid.callStack := by
              rw [hcs]; exact hB1
            have hstmid1 : 1 ≤ stmid.callStack.length := by
              rw [hcs]; omega
            obtain ⟨hA2, hB2, hl1, hl2⟩ := stepAfterSource_c8 env logs i log
              call pos stmid st2 _ h hlog hd hAmid h0 hmax hBmid hstmid1
            rw [hcs] at hl2
            refine ⟨?_, hB2, hl1, by omega⟩
            refine ABnd_mono _ _ _ hA2 ?_
            rw [partialGc_succ logs i log hlog]
            have hl2I : (st2.callStack.length : Int) ≤
                (stack1.length : Int) + 1 := by exact_mod_cast hl2
            have hm := mul_le_mul_of_nonneg_right (show
              (i : Int) + 1 - stack1.length ≤
                ((i : Int) + 1) + 1 - st2.callStack.length by linarith) hG0
            push_cast
            linarith

theorem steps_c8 (env : Env) (logs : List StructLog) (bd : Int) (G : Int)
    (good : GoodTrace logs G) :
    ∀ (fuel i : Nat) (st st2 : ReplayState),
      replaySteps env logs bd fuel i st = .ok st2 →
      C8Inv logs G i st →
      ∃ i2, C8Inv logs G i2 st2 := by
  intro fuel
  induction fuel with
  | zero =>
    intro i st st2 h inv
    cases h
    exact ⟨i, inv⟩
  | succ f ih =>
    intro i st st2 h inv
    rw [replaySteps] at h
    split at h
    · rename_i hiN
      split at h
      · simp at h
      · rename_i stmid hstep
        exact ih (i + 1) stmid st2 h
          (step_c8 env logs bd i st stmid G good hiN hstep inv)
    · cases h
      exact ⟨i, inv⟩

theorem initialState_c8 (env : Env) (a : String) (c : Bool)
    (logs : List StructLog) (G : Int) :
    C8Inv logs G 0 (initialState env a c) := by
  have harena : (initialState env a c).arena = [] := by
    show (getContractWithAddr env a ⟨[], [], [], [], []⟩).2.arena = []
    rw [getContractWithAddr_arena]
  have hstack : (initialState env a c).callStack =
      [{ makeCallStackItem (getContractWithAddr env a ⟨[], [], [], [], []⟩).1
          with isConstructionCall := c }] := rfl
  refine ⟨?_, ?_, ?_, ?_⟩
  · rw [harena]
    intro src hs e he
    simp at hs
  · rw [hstack]
    intro j f hjf h1
    cases j with
    | zero => omega
    | succ j2 =>
      rw [List.getElem?_cons_succ] at hjf
      simp at hjf
  · rw [hstack]
    simp
  · rw [hstack]
    simp

/-- C8 counterexample: a single-step trace whose `ADD` log carries
`gasCost = -5` (as geth can report around calls/refunds) drives the
accumulated `lineGas` entry of the entry contract's line 0 to `-5`, so the
claimed invariant `lineGas[k] ≥ 0` fails during and after the replay:
`getGasCost` only zeroes negative costs on RETURN/REVERT/STOP, and
`increaseLineGasCost` adds the raw value. -/
theorem c8_counterexample :
    lineGasOfResult (mainCore envNeg "0x00" false [logNeg]) 0 0 =
      some (-5) := by
  decide

/-- C8 amended: if every log's normalized cost is nonnegative, gas values
lie in `[0, G]` and never increase along the trace, and the total budget
`Σ gasCost + n·G` fits in a signed 32-bit integer (all true of real EVM
traces), then at every point during the replay every accumulated
`lineGas` entry is nonnegative. -/
theorem c8_line_gas_nonneg (env : Env) (a : String) (c : Bool)
    (logs : List StructLog) (G : Int) (k : Nat)
    (good : GoodTrace logs G) :
    ∀ st2, mainCoreUpTo env a c logs k = .ok st2 →
      ∀ src ∈ st2.arena, ∀ e ∈ src.lineGas, 0 ≤ e.2 := by
  intro st2 h src hs e he
  unfold mainCoreUpTo at h
  split at h
  · simp at h
  · split at h
    · simp at h
    · rename_i fl hfl
      obtain ⟨i2, inv⟩ := steps_c8 env logs fl.depth G good k 0
        (initialState env a c) st2 h (initialState_c8 env a c logs G)
      exact (inv.1 src hs e he).1

theorem c8_line_gas_nonneg_witness :
    GoodTrace [logPos] 100 ∧
    (∀ st2, mainCoreUpTo envNeg "0x00" false [logPos] 1 = .ok st2 →
      ∀ src ∈ st2.arena, ∀ e ∈ src.lineGas, 0 ≤ e.2) :=
  ⟨⟨by decide, by decide, by decide, List.chain'_singleton _, by decide⟩,
   c8_line_gas_nonneg envNeg "0x00" false [logPos] 100 1
     ⟨by decide, by decide, by decide, List.chain'_singleton _, by decide⟩⟩
